import Mathlib

/-!
Verification of the content-addressing core of `pyhf.utils` (`src/pyhf/utils.py`):
the function `digest(obj, algorithm='sha256')`, which serializes a
JSON-serializable Python object with
`json.dumps(obj, sort_keys=True, ensure_ascii=False).encode('utf8')`
and applies the hash algorithm obtained via `getattr(hashlib, algorithm)`,
returning `hexdigest()`.

The embedding:
* Python code points are `Nat` (a Python `str` may contain lone surrogates,
  which no Lean `String` can hold, so strings are `List Nat` of code points);
  byte sequences are `List Nat` with entries below 256.
* `serVal` embeds `json.dumps(·, sort_keys=True, ensure_ascii=False)`,
  `encodeUtf8` embeds `str.encode('utf8')`, and `md5Bytes`, `sha1Bytes`,
  `sha256Bytes` implement the corresponding `hashlib` algorithms
  (FIPS 180-4 / RFC 1321) on `Nat` with explicit reduction mod 2^32.
* Fallible steps return `Except`; the three ways the Python code can raise
  are the three constructors of `DigestError`.
-/

set_option maxHeartbeats 4000000
set_option maxRecDepth 20000

instance {ε α : Type} [DecidableEq ε] [DecidableEq α] : DecidableEq (Except ε α) := fun a b =>
  match a, b with
  | .ok x, .ok y =>
      if h : x = y then .isTrue (by rw [h]) else .isFalse (by intro hc; cases hc; exact h rfl)
  | .error x, .error y =>
      if h : x = y then .isTrue (by rw [h]) else .isFalse (by intro hc; cases hc; exact h rfl)
  | .ok _, .error _ => .isFalse (by intro hc; cases hc)
  | .error _, .ok _ => .isFalse (by intro hc; cases hc)

/-! ### 32-bit primitives over `Nat`

All hash-internal words are `Nat` kept below `2^32` by explicit masking. -/

/-- Reduce a `Nat` to a 32-bit word. -/
def u32 (x : Nat) : Nat := x &&& 0xFFFFFFFF

/-- Rotate a 32-bit word right by `n` bits. -/
def rotr32 (n x : Nat) : Nat := u32 ((x >>> n) ||| (x <<< (32 - n)))

/-- Rotate a 32-bit word left by `n` bits. -/
def rotl32 (n x : Nat) : Nat := u32 ((x <<< n) ||| (x >>> (32 - n)))

/-- Big-endian 32-bit words from a byte stream (length a multiple of 4). -/
def wordsBE : List Nat → List Nat
  | u :: x :: y :: z :: rest =>
      ((u <<< 24) ||| (x <<< 16) ||| (y <<< 8) ||| z) :: wordsBE rest
  | _ => []

/-- Little-endian 32-bit words from a byte stream (length a multiple of 4). -/
def wordsLE : List Nat → List Nat
  | u :: x :: y :: z :: rest =>
      (u ||| (x <<< 8) ||| (y <<< 16) ||| (z <<< 24)) :: wordsLE rest
  | _ => []

/-- The four bytes of a 32-bit word, most significant first. -/
def wordBE (w : Nat) : List Nat :=
  [(w >>> 24) &&& 255, (w >>> 16) &&& 255, (w >>> 8) &&& 255, w &&& 255]

/-- The four bytes of a 32-bit word, least significant first. -/
def wordLE (w : Nat) : List Nat :=
  [w &&& 255, (w >>> 8) &&& 255, (w >>> 16) &&& 255, (w >>> 24) &&& 255]

/-- The eight bytes of a 64-bit value, most significant first. -/
def bytesBE64 (n : Nat) : List Nat :=
  [(n >>> 56) &&& 255, (n >>> 48) &&& 255, (n >>> 40) &&& 255, (n >>> 32) &&& 255,
   (n >>> 24) &&& 255, (n >>> 16) &&& 255, (n >>> 8) &&& 255, n &&& 255]

/-- The eight bytes of a 64-bit value, least significant first. -/
def bytesLE64 (n : Nat) : List Nat :=
  [n &&& 255, (n >>> 8) &&& 255, (n >>> 16) &&& 255, (n >>> 24) &&& 255,
   (n >>> 32) &&& 255, (n >>> 40) &&& 255, (n >>> 48) &&& 255, (n >>> 56) &&& 255]

/-- Zero bytes inserted by Merkle–Damgård padding after the `0x80` byte, so that
`len + 1 + padZeros len` is congruent to 56 mod 64. -/
def padZeros (len : Nat) : Nat := (119 - len % 64) % 64

/-- Message with `0x80` marker and zero padding appended (the 8-byte length
field is appended separately, big-endian for SHA, little-endian for MD5). -/
def mdPadded (msg : List Nat) : List Nat :=
  msg ++ [0x80] ++ List.replicate (padZeros msg.length) 0

/-- Split a byte stream into `n` successive 64-byte blocks. -/
def chunks64 : Nat → List Nat → List (List Nat)
  | 0, _ => []
  | _ + 1, [] => []
  | n + 1, l => l.take 64 :: chunks64 n (l.drop 64)

/-! ### SHA-256 (FIPS 180-4) -/

/-- The 64 SHA-256 round constants. -/
def sha256K : List Nat :=
  [1116352408, 1899447441, 3049323471, 3921009573, 961987163, 1508970993, 2453635748, 2870763221,
   3624381080, 310598401, 607225278, 1426881987, 1925078388, 2162078206, 2614888103, 3248222580,
   3835390401, 4022224774, 264347078, 604807628, 770255983, 1249150122, 1555081692, 1996064986,
   2554220882, 2821834349, 2952996808, 3210313671, 3336571891, 3584528711, 113926993, 338241895,
   666307205, 773529912, 1294757372, 1396182291, 1695183700, 1986661051, 2177026350, 2456956037,
   2730485921, 2820302411, 3259730800, 3345764771, 3516065817, 3600352804, 4094571909, 275423344,
   430227734, 506948616, 659060556, 883997877, 958139571, 1322822218, 1537002063, 1747873779,
   1955562222, 2024104815, 2227730452, 2361852424, 2428436474, 2756734187, 3204031479, 3329325298]

/-- Eight-word hash state (a, b, c, d, e, f, g, h). -/
abbrev S8 := Nat × Nat × Nat × Nat × Nat × Nat × Nat × Nat

/-- SHA-256 initial hash value. -/
def sha256Init : S8 :=
  (1779033703, 3144134277, 1013904242, 2773480762, 1359893119, 2600822924, 528734635, 1541459225)

/-- SHA-256 small sigma 0. -/
def ssig0 (x : Nat) : Nat := rotr32 7 x ^^^ rotr32 18 x ^^^ (x >>> 3)

/-- SHA-256 small sigma 1. -/
def ssig1 (x : Nat) : Nat := rotr32 17 x ^^^ rotr32 19 x ^^^ (x >>> 10)

/-- Extend the 16-word window by `n` schedule words; `win` holds the most
recent 16 words, oldest first. -/
def sha256Ext : Nat → List Nat → List Nat
  | 0, _ => []
  | n + 1, win =>
      let w := u32 (ssig1 (win.getD 14 0) + win.getD 9 0 + ssig0 (win.getD 1 0) + win.getD 0 0)
      w :: sha256Ext n (win.drop 1 ++ [w])

/-- One SHA-256 compression round; `kw` is the round constant paired with the
schedule word. -/
def sha256Step (st : S8) (kw : Nat × Nat) : S8 :=
  let (a, b, c, d, e, f, g, h) := st
  let (k, w) := kw
  let s1 := rotr32 6 e ^^^ rotr32 11 e ^^^ rotr32 25 e
  let ch := (e &&& f) ^^^ ((e ^^^ 0xFFFFFFFF) &&& g)
  let t1 := u32 (h + s1 + ch + k + w)
  let s0 := rotr32 2 a ^^^ rotr32 13 a ^^^ rotr32 22 a
  let maj := (a &&& b) ^^^ (a &&& c) ^^^ (b &&& c)
  let t2 := u32 (s0 + maj)
  (u32 (t1 + t2), a, b, c, u32 (d + t1), e, f, g)

/-- Process one 64-byte block. -/
def sha256Block (st : S8) (block : List Nat) : S8 :=
  let w16 := wordsBE block
  let ws := w16 ++ sha256Ext 48 w16
  let (a, b, c, d, e, f, g, h) := (sha256K.zip ws).foldl sha256Step st
  let (a0, b0, c0, d0, e0, f0, g0, h0) := st
  (u32 (a0 + a), u32 (b0 + b), u32 (c0 + c), u32 (d0 + d),
   u32 (e0 + e), u32 (f0 + f), u32 (g0 + g), u32 (h0 + h))

/-- Serialize an 8-word state big-endian. -/
def outBE8 (st : S8) : List Nat :=
  let (a, b, c, d, e, f, g, h) := st
  wordBE a ++ wordBE b ++ wordBE c ++ wordBE d ++ wordBE e ++ wordBE f ++ wordBE g ++ wordBE h

/-- SHA-256 digest (32 bytes) of a byte sequence. -/
def sha256Bytes (msg : List Nat) : List Nat :=
  let padded := mdPadded msg ++ bytesBE64 (8 * msg.length)
  outBE8 ((chunks64 (padded.length / 64) padded).foldl sha256Block sha256Init)

/-! ### SHA-1 (FIPS 180-4) -/

/-- Five-word hash state (a, b, c, d, e). -/
abbrev S5 := Nat × Nat × Nat × Nat × Nat

/-- SHA-1 initial hash value. -/
def sha1Init : S5 := (1732584193, 4023233417, 2562383102, 271733878, 3285377520)

/-- Extend the 16-word window by `n` schedule words. -/
def sha1Ext : Nat → List Nat → List Nat
  | 0, _ => []
  | n + 1, win =>
      let w := rotl32 1 (win.getD 13 0 ^^^ win.getD 8 0 ^^^ win.getD 2 0 ^^^ win.getD 0 0)
      w :: sha1Ext n (win.drop 1 ++ [w])

/-- One SHA-1 round; `tw` is the round index paired with the schedule word. -/
def sha1Step (st : S5) (tw : Nat × Nat) : S5 :=
  let (a, b, c, d, e) := st
  let (t, w) := tw
  let f :=
    if t < 20 then (b &&& c) ||| ((b ^^^ 0xFFFFFFFF) &&& d)
    else if t < 40 then b ^^^ c ^^^ d
    else if t < 60 then (b &&& c) ||| (b &&& d) ||| (c &&& d)
    else b ^^^ c ^^^ d
  let k :=
    if t < 20 then 0x5a827999
    else if t < 40 then 0x6ed9eba1
    else if t < 60 then 0x8f1bbcdc
    else 0xca62c1d6
  let temp := u32 (rotl32 5 a + f + e + k + w)
  (temp, a, rotl32 30 b, c, d)

/-- Process one 64-byte block. -/
def sha1Block (st : S5) (block : List Nat) : S5 :=
  let w16 := wordsBE block
  let ws := w16 ++ sha1Ext 64 w16
  let (a, b, c, d, e) := ((List.range 80).zip ws).foldl sha1Step st
  let (a0, b0, c0, d0, e0) := st
  (u32 (a0 + a), u32 (b0 + b), u32 (c0 + c), u32 (d0 + d), u32 (e0 + e))

/-- Serialize a 5-word state big-endian. -/
def outBE5 (st : S5) : List Nat :=
  let (a, b, c, d, e) := st
  wordBE a ++ wordBE b ++ wordBE c ++ wordBE d ++ wordBE e

/-- SHA-1 digest (20 bytes) of a byte sequence. -/
def sha1Bytes (msg : List Nat) : List Nat :=
  let padded := mdPadded msg ++ bytesBE64 (8 * msg.length)
  outBE5 ((chunks64 (padded.length / 64) padded).foldl sha1Block sha1Init)

/-! ### MD5 (RFC 1321) -/

/-- The 64 MD5 sine-derived constants. -/
def md5K : List Nat :=
  [3614090360, 3905402710, 606105819, 3250441966, 4118548399, 1200080426, 2821735955, 4249261313,
   1770035416, 2336552879, 4294925233, 2304563134, 1804603682, 4254626195, 2792965006, 1236535329,
   4129170786, 3225465664, 643717713, 3921069994, 3593408605, 38016083, 3634488961, 3889429448,
   568446438, 3275163606, 4107603335, 1163531501, 2850285829, 4243563512, 1735328473, 2368359562,
   4294588738, 2272392833, 1839030562, 4259657740, 2763975236, 1272893353, 4139469664, 3200236656,
   681279174, 3936430074, 3572445317, 76029189, 3654602809, 3873151461, 530742520, 3299628645,
   4096336452, 1126891415, 2878612391, 4237533241, 1700485571, 2399980690, 4293915773, 2240044497,
   1873313359, 4264355552, 2734768916, 1309151649, 4149444226, 3174756917, 718787259, 3951481745]

/-- The MD5 per-round left-rotation amounts. -/
def md5S : List Nat :=
  [7, 12, 17, 22, 7, 12, 17, 22, 7, 12, 17, 22, 7, 12, 17, 22,
   5, 9, 14, 20, 5, 9, 14, 20, 5, 9, 14, 20, 5, 9, 14, 20,
   4, 11, 16, 23, 4, 11, 16, 23, 4, 11, 16, 23, 4, 11, 16, 23,
   6, 10, 15, 21, 6, 10, 15, 21, 6, 10, 15, 21, 6, 10, 15, 21]

/-- Four-word hash state (a, b, c, d). -/
abbrev S4 := Nat × Nat × Nat × Nat

/-- MD5 initial state. -/
def md5Init : S4 := (1732584193, 4023233417, 2562383102, 271733878)

/-- One MD5 operation; `m` is the current block as 16 little-endian words and
`i` the operation index (0–63). -/
def md5Step (m : List Nat) (st : S4) (i : Nat) : S4 :=
  let (a, b, c, d) := st
  let (f, g) :=
    if i < 16 then ((b &&& c) ||| ((b ^^^ 0xFFFFFFFF) &&& d), i)
    else if i < 32 then ((d &&& b) ||| ((d ^^^ 0xFFFFFFFF) &&& c), (5 * i + 1) % 16)
    else if i < 48 then (b ^^^ c ^^^ d, (3 * i + 5) % 16)
    else (c ^^^ (b ||| (d ^^^ 0xFFFFFFFF)), (7 * i) % 16)
  let f' := u32 (f + a + md5K.getD i 0 + m.getD g 0)
  (d, u32 (b + rotl32 (md5S.getD i 0) f'), b, c)

/-- Process one 64-byte block. -/
def md5Block (st : S4) (block : List Nat) : S4 :=
  let m := wordsLE block
  let (a, b, c, d) := (List.range 64).foldl (md5Step m) st
  let (a0, b0, c0, d0) := st
  (u32 (a0 + a), u32 (b0 + b), u32 (c0 + c), u32 (d0 + d))

/-- Serialize a 4-word state little-endian. -/
def outLE4 (st : S4) : List Nat :=
  let (a, b, c, d) := st
  wordLE a ++ wordLE b ++ wordLE c ++ wordLE d

/-- MD5 digest (16 bytes) of a byte sequence. -/
def md5Bytes (msg : List Nat) : List Nat :=
  let padded := mdPadded msg ++ bytesLE64 (8 * msg.length)
  outLE4 ((chunks64 (padded.length / 64) padded).foldl md5Block md5Init)

/-! ### Lowercase hexadecimal rendering (`hexdigest`) -/

/-- Lowercase hexadecimal digit for `n < 16`. -/
def hexChar (n : Nat) : Char := if n < 10 then Char.ofNat (48 + n) else Char.ofNat (87 + n)

/-- Two lowercase hex digits of a byte. -/
def byteHex (b : Nat) : List Char := [hexChar (b / 16 % 16), hexChar (b % 16)]

/-- Lowercase hexadecimal string of a byte sequence, as Python's
`hashlib` `hexdigest()` renders the digest bytes. -/
def hexdigest (bs : List Nat) : String := String.mk (bs.flatMap byteHex)

/-! ### SHA-512 family (FIPS 180-4, 64-bit words) -/

/-- Reduce a `Nat` to a 64-bit word. -/
def u64 (x : Nat) : Nat := x &&& 18446744073709551615

/-- Rotate a 64-bit word right by `n` bits. -/
def rotr64 (n x : Nat) : Nat := u64 ((x >>> n) ||| (x <<< (64 - n)))

/-- Rotate a 64-bit word left by `n` bits. -/
def rotl64 (n x : Nat) : Nat := u64 ((x <<< n) ||| (x >>> (64 - n)))

/-- Big-endian 64-bit words from a byte stream (length a multiple of 8). -/
def words64BE : List Nat → List Nat
  | a :: b :: c :: d :: e :: f :: g :: h :: rest =>
      ((a <<< 56) ||| (b <<< 48) ||| (c <<< 40) ||| (d <<< 32) |||
       (e <<< 24) ||| (f <<< 16) ||| (g <<< 8) ||| h) :: words64BE rest
  | _ => []

/-- Little-endian 64-bit words from a byte stream (length a multiple of 8). -/
def words64LE : List Nat → List Nat
  | a :: b :: c :: d :: e :: f :: g :: h :: rest =>
      (a ||| (b <<< 8) ||| (c <<< 16) ||| (d <<< 24) |||
       (e <<< 32) ||| (f <<< 40) ||| (g <<< 48) ||| (h <<< 56)) :: words64LE rest
  | _ => []

/-- The eight bytes of a 64-bit word, most significant first. -/
def wordBE64 (w : Nat) : List Nat :=
  [(w >>> 56) &&& 255, (w >>> 48) &&& 255, (w >>> 40) &&& 255, (w >>> 32) &&& 255,
   (w >>> 24) &&& 255, (w >>> 16) &&& 255, (w >>> 8) &&& 255, w &&& 255]

/-- The eight bytes of a 64-bit word, least significant first. -/
def wordLE64 (w : Nat) : List Nat :=
  [w &&& 255, (w >>> 8) &&& 255, (w >>> 16) &&& 255, (w >>> 24) &&& 255,
   (w >>> 32) &&& 255, (w >>> 40) &&& 255, (w >>> 48) &&& 255, (w >>> 56) &&& 255]

/-- Split a byte stream into `n` successive blocks of `sz` bytes. -/
def chunksOf (sz : Nat) : Nat → List Nat → List (List Nat)
  | 0, _ => []
  | _ + 1, [] => []
  | n + 1, l => l.take sz :: chunksOf sz n (l.drop sz)

/-- The 80 SHA-512 round constants (decimal). -/
def sha512K : List Nat :=
  [4794697086780616226, 8158064640168781261, 13096744586834688815, 16840607885511220156,
   4131703408338449720, 6480981068601479193, 10538285296894168987, 12329834152419229976,
   15566598209576043074, 1334009975649890238, 2608012711638119052, 6128411473006802146,
   8268148722764581231, 9286055187155687089, 11230858885718282805, 13951009754708518548,
   16472876342353939154, 17275323862435702243, 1135362057144423861, 2597628984639134821,
   3308224258029322869, 5365058923640841347, 6679025012923562964, 8573033837759648693,
   10970295158949994411, 12119686244451234320, 12683024718118986047, 13788192230050041572,
   14330467153632333762, 15395433587784984357, 489312712824947311, 1452737877330783856,
   2861767655752347644, 3322285676063803686, 5560940570517711597, 5996557281743188959,
   7280758554555802590, 8532644243296465576, 9350256976987008742, 10552545826968843579,
   11727347734174303076, 12113106623233404929, 14000437183269869457, 14369950271660146224,
   15101387698204529176, 15463397548674623760, 17586052441742319658, 1182934255886127544,
   1847814050463011016, 2177327727835720531, 2830643537854262169, 3796741975233480872,
   4115178125766777443, 5681478168544905931, 6601373596472566643, 7507060721942968483,
   8399075790359081724, 8693463985226723168, 9568029438360202098, 10144078919501101548,
   10430055236837252648, 11840083180663258601, 13761210420658862357, 14299343276471374635,
   14566680578165727644, 15097957966210449927, 16922976911328602910, 17689382322260857208,
   500013540394364858, 748580250866718886, 1242879168328830382, 1977374033974150939,
   2944078676154940804, 3659926193048069267, 4368137639120453308, 4836135668995329356,
   5532061633213252278, 6448918945643986474, 6902733635092675308, 7801388544844847127]

/-- SHA-512 initial hash value. -/
def sha512Init : S8 :=
  (7640891576956012808, 13503953896175478587, 4354685564936845355, 11912009170470909681,
   5840696475078001361, 11170449401992604703, 2270897969802886507, 6620516959819538809)

/-- SHA-384 initial hash value. -/
def sha384Init : S8 :=
  (14680500436340154072, 7105036623409894663, 10473403895298186519, 1526699215303891257,
   7436329637833083697, 10282925794625328401, 15784041429090275239, 5167115440072839076)

/-- SHA-224 initial hash value (32-bit words; SHA-224 shares the SHA-256
compression function). -/
def sha224Init : S8 :=
  (3238371032, 914150663, 812702999, 4144912697,
   4290775857, 1750603025, 1694076839, 3204075428)

/-- SHA-512 small sigma 0. -/
def ssig512x0 (x : Nat) : Nat := rotr64 1 x ^^^ rotr64 8 x ^^^ (x >>> 7)

/-- SHA-512 small sigma 1. -/
def ssig512x1 (x : Nat) : Nat := rotr64 19 x ^^^ rotr64 61 x ^^^ (x >>> 6)

/-- Extend the 16-word window by `n` SHA-512 schedule words. -/
def sha512Ext : Nat → List Nat → List Nat
  | 0, _ => []
  | n + 1, win =>
      let w := u64 (ssig512x1 (win.getD 14 0) + win.getD 9 0 + ssig512x0 (win.getD 1 0) + win.getD 0 0)
      w :: sha512Ext n (win.drop 1 ++ [w])

/-- One SHA-512 compression round. -/
def sha512Step (st : S8) (kw : Nat × Nat) : S8 :=
  let (a, b, c, d, e, f, g, h) := st
  let (k, w) := kw
  let s1 := rotr64 14 e ^^^ rotr64 18 e ^^^ rotr64 41 e
  let ch := (e &&& f) ^^^ ((e ^^^ 18446744073709551615) &&& g)
  let t1 := u64 (h + s1 + ch + k + w)
  let s0 := rotr64 28 a ^^^ rotr64 34 a ^^^ rotr64 39 a
  let maj := (a &&& b) ^^^ (a &&& c) ^^^ (b &&& c)
  let t2 := u64 (s0 + maj)
  (u64 (t1 + t2), a, b, c, u64 (d + t1), e, f, g)

/-- Process one 128-byte SHA-512 block. -/
def sha512Block (st : S8) (block : List Nat) : S8 :=
  let w16 := words64BE block
  let ws := w16 ++ sha512Ext 64 w16
  let (a, b, c, d, e, f, g, h) := (sha512K.zip ws).foldl sha512Step st
  let (a0, b0, c0, d0, e0, f0, g0, h0) := st
  (u64 (a0 + a), u64 (b0 + b), u64 (c0 + c), u64 (d0 + d),
   u64 (e0 + e), u64 (f0 + f), u64 (g0 + g), u64 (h0 + h))

/-- Zero bytes of the SHA-512-family padding, so that
`len + 1 + padZeros512 len` is congruent to 112 mod 128. -/
def padZeros512 (len : Nat) : Nat := (239 - len % 128) % 128

/-- Common SHA-512/SHA-384 block iteration: pad (16-byte big-endian bit
length) and fold the compression function from the given initial value. -/
def sha512Core (init : S8) (msg : List Nat) : S8 :=
  let padded := msg ++ [128] ++ List.replicate (padZeros512 msg.length) 0 ++
    bytesBE64 ((8 * msg.length) >>> 64) ++ bytesBE64 (8 * msg.length)
  (chunksOf 128 (padded.length / 128) padded).foldl sha512Block init

/-- Serialize an 8-word 64-bit state big-endian. -/
def outBE64x8 (st : S8) : List Nat :=
  let (a, b, c, d, e, f, g, h) := st
  wordBE64 a ++ wordBE64 b ++ wordBE64 c ++ wordBE64 d ++
  wordBE64 e ++ wordBE64 f ++ wordBE64 g ++ wordBE64 h

/-- Serialize the first six words of a 64-bit state big-endian (SHA-384). -/
def outBE64x6 (st : S8) : List Nat :=
  let (a, b, c, d, e, f, _, _) := st
  wordBE64 a ++ wordBE64 b ++ wordBE64 c ++ wordBE64 d ++ wordBE64 e ++ wordBE64 f

/-- Serialize the first seven words of a 32-bit state big-endian (SHA-224). -/
def outBE7 (st : S8) : List Nat :=
  let (a, b, c, d, e, f, g, _) := st
  wordBE a ++ wordBE b ++ wordBE c ++ wordBE d ++ wordBE e ++ wordBE f ++ wordBE g

/-- SHA-512 digest (64 bytes) of a byte sequence. -/
def sha512Bytes (msg : List Nat) : List Nat := outBE64x8 (sha512Core sha512Init msg)

/-- SHA-384 digest (48 bytes) of a byte sequence. -/
def sha384Bytes (msg : List Nat) : List Nat := outBE64x6 (sha512Core sha384Init msg)

/-- SHA-224 digest (28 bytes): the SHA-256 iteration from the SHA-224
initial value, truncated to seven words. -/
def sha224Bytes (msg : List Nat) : List Nat :=
  let padded := mdPadded msg ++ bytesBE64 (8 * msg.length)
  outBE7 ((chunks64 (padded.length / 64) padded).foldl sha256Block sha224Init)

/-! ### SHA-3 (FIPS 202, Keccak-f[1600]) -/

/-- The 24 Keccak round constants (decimal). -/
def keccakRC : List Nat :=
  [1, 32898, 9223372036854808714, 9223372039002292224,
   32907, 2147483649, 9223372039002292353, 9223372036854808585,
   138, 136, 2147516425, 2147483658,
   2147516555, 9223372036854775947, 9223372036854808713, 9223372036854808579,
   9223372036854808578, 9223372036854775936, 32778, 9223372039002259466,
   9223372039002292353, 9223372036854808704, 2147483649, 9223372039002292232]

/-- Rotation offsets of the rho step, indexed by `x + 5 * y`. -/
def rhoOffsets : List Nat :=
  [0, 1, 62, 28, 27] ++ [36, 44, 6, 55, 20] ++ [3, 10, 43, 25, 39] ++
    [41, 45, 15, 21, 8] ++ [18, 2, 61, 56, 14]

/-- Keccak theta step on a 25-lane state (lane `(x, y)` at index `x + 5 * y`). -/
def keccakTheta (s : List Nat) : List Nat :=
  let c := fun (x : Nat) =>
    s.getD x 0 ^^^ s.getD (x + 5) 0 ^^^ s.getD (x + 10) 0 ^^^ s.getD (x + 15) 0 ^^^ s.getD (x + 20) 0
  let d := fun (x : Nat) => c ((x + 4) % 5) ^^^ rotl64 1 (c ((x + 1) % 5))
  (List.range 25).map fun i => u64 (s.getD i 0 ^^^ d (i % 5))

/-- Combined rho and pi steps: lane `(xb, yb)` of the result is lane
`((xb + 3*yb) % 5, xb)` of the input rotated by its rho offset. -/
def keccakRhoPi (s : List Nat) : List Nat :=
  (List.range 25).map fun i =>
    let xb := i % 5
    let yb := i / 5
    let j := (xb + 3 * yb) % 5 + 5 * xb
    rotl64 (rhoOffsets.getD j 0) (s.getD j 0)

/-- Keccak chi step. -/
def keccakChi (b : List Nat) : List Nat :=
  (List.range 25).map fun i =>
    let x := i % 5
    let y := i / 5
    u64 (b.getD i 0 ^^^
      ((b.getD ((x + 1) % 5 + 5 * y) 0 ^^^ 18446744073709551615) &&& b.getD ((x + 2) % 5 + 5 * y) 0))

/-- One Keccak round: theta, rho, pi, chi, iota. -/
def keccakRound (s : List Nat) (rc : Nat) : List Nat :=
  let t := keccakChi (keccakRhoPi (keccakTheta s))
  t.set 0 (u64 (t.getD 0 0 ^^^ rc))

/-- The Keccak-f[1600] permutation. -/
def keccakP (s : List Nat) : List Nat := keccakRC.foldl keccakRound s

/-- Absorb one rate-sized block (bytes, little-endian lanes). -/
def keccakAbsorb (s block : List Nat) : List Nat :=
  let lanes := words64LE block
  keccakP ((List.range 25).map fun i => u64 (s.getD i 0 ^^^ lanes.getD i 0))

/-- SHA-3 padding `0x06 … 0x80` (`0x86` when only one byte is free) to a
multiple of the rate. -/
def sha3Pad (rate : Nat) (msg : List Nat) : List Nat :=
  let r := rate - msg.length % rate
  if r = 1 then msg ++ [134]
  else msg ++ [6] ++ List.replicate (r - 2) 0 ++ [128]

/-- SHA-3 digest of `outLen` bytes with the given rate (in bytes). -/
def sha3Bytes (rate outLen : Nat) (msg : List Nat) : List Nat :=
  let padded := sha3Pad rate msg
  let final := (chunksOf rate (padded.length / rate) padded).foldl keccakAbsorb (List.replicate 25 0)
  (final.flatMap wordLE64).take outLen

/-! ### BLAKE2b and BLAKE2s (RFC 7693) -/

/-- The BLAKE2 message schedule, ten rounds of sixteen indices. -/
def blakeSigma : List (List Nat) :=
  [[0, 1, 2, 3, 4, 5, 6, 7, 8, 9, 10, 11, 12, 13, 14, 15],
   [14, 10, 4, 8, 9, 15, 13, 6, 1, 12, 0, 2, 11, 7, 5, 3],
   [11, 8, 12, 0, 5, 2, 15, 13, 10, 14, 3, 6, 7, 1, 9, 4],
   [7, 9, 3, 1, 13, 12, 11, 14, 2, 6, 5, 10, 4, 0, 15, 8],
   [9, 0, 5, 7, 2, 4, 10, 15, 14, 1, 11, 12, 6, 8, 3, 13],
   [2, 12, 6, 10, 0, 11, 8, 3, 4, 13, 7, 5, 15, 14, 1, 9],
   [12, 5, 1, 15, 14, 13, 4, 10, 0, 7, 6, 3, 9, 2, 8, 11],
   [13, 11, 7, 14, 12, 1, 3, 9, 5, 0, 15, 4, 8, 6, 2, 10],
   [6, 15, 14, 9, 11, 3, 0, 8, 12, 2, 13, 7, 1, 4, 10, 5],
   [10, 2, 8, 4, 7, 6, 1, 5, 15, 11, 9, 14, 3, 12, 13, 0]]

/-- One BLAKE2 G mixing function, parametrized by the word reduction, the
rotation function and the four rotation amounts. -/
def blakeG (red : Nat → Nat) (rot : Nat → Nat → Nat) (r1 r2 r3 r4 : Nat)
    (x y a b c d : Nat) (v : List Nat) : List Nat :=
  let va := red (v.getD a 0 + v.getD b 0 + x)
  let vd := rot r1 (v.getD d 0 ^^^ va)
  let vc := red (v.getD c 0 + vd)
  let vb := rot r2 (v.getD b 0 ^^^ vc)
  let va2 := red (va + vb + y)
  let vd2 := rot r3 (vd ^^^ va2)
  let vc2 := red (vc + vd2)
  let vb2 := rot r4 (vb ^^^ vc2)
  (((v.set a va2).set b vb2).set c vc2).set d vd2

/-- One BLAKE2 round: eight G applications in the standard pattern with the
given sigma row. -/
def blakeRound (red : Nat → Nat) (rot : Nat → Nat → Nat) (r1 r2 r3 r4 : Nat)
    (m : List Nat) (v : List Nat) (sg : List Nat) : List Nat :=
  let mi := fun (i : Nat) => m.getD (sg.getD i 0) 0
  let g := fun (v : List Nat) (si a b c d : Nat) =>
    blakeG red rot r1 r2 r3 r4 (mi si) (mi (si + 1)) a b c d v
  let v1 := g v 0 0 4 8 12
  let v2 := g v1 2 1 5 9 13
  let v3 := g v2 4 2 6 10 14
  let v4 := g v3 6 3 7 11 15
  let v5 := g v4 8 0 5 10 15
  let v6 := g v5 10 1 6 11 12
  let v7 := g v6 12 2 7 8 13
  g v7 14 3 4 9 14

/-- The BLAKE2 compression function F, parametrized over word size. -/
def blakeCompress (red : Nat → Nat) (rot : Nat → Nat → Nat) (r1 r2 r3 r4 : Nat)
    (mask : Nat) (wbits : Nat) (iv : List Nat) (nrounds : Nat) (toWords : List Nat → List Nat)
    (h : List Nat) (block : List Nat) (t : Nat) (last : Bool) : List Nat :=
  let m := toWords block
  let v0 := h ++ iv
  let v1 := v0.set 12 (v0.getD 12 0 ^^^ (t &&& mask))
  let v2 := v1.set 13 (v1.getD 13 0 ^^^ ((t >>> wbits) &&& mask))
  let v3 := if last then v2.set 14 (v2.getD 14 0 ^^^ mask) else v2
  let vf := ((List.range nrounds).map fun i => blakeSigma.getD (i % 10) []).foldl
    (blakeRound red rot r1 r2 r3 r4 m) v3
  (List.range 8).map fun i => h.getD i 0 ^^^ vf.getD i 0 ^^^ vf.getD (i + 8) 0

/-- Message blocks of size `bb`, the last zero-padded; an empty message is a
single all-zero block. -/
def blakeBlocks (bb : Nat) (msg : List Nat) : List (List Nat) :=
  if msg.length = 0 then [List.replicate bb 0]
  else (chunksOf bb ((msg.length + bb - 1) / bb) msg).map
    fun c => c ++ List.replicate (bb - c.length) 0

/-- Fold the compression function over the blocks, with the byte counter at
each block and the final-block flag on the last. -/
def blakeFold (compress : List Nat → List Nat → Nat → Bool → List Nat) (bb : Nat)
    (total : Nat) : List Nat → Nat → List (List Nat) → List Nat
  | h, _, [] => h
  | h, _, [b] => compress h b total true
  | h, done, b :: bs => blakeFold compress bb total (compress h b (done + bb) false) (done + bb) bs

/-- BLAKE2b-512 digest (64 bytes), unkeyed with default parameters, as
`hashlib.blake2b(data)` computes it. -/
def blake2bBytes (msg : List Nat) : List Nat :=
  let iv := [7640891576956012808, 13503953896175478587, 4354685564936845355,
    11912009170470909681, 5840696475078001361, 11170449401992604703,
    2270897969802886507, 6620516959819538809]
  let h0 := iv.set 0 (iv.getD 0 0 ^^^ 16842816)
  let compress := blakeCompress u64 rotr64 32 24 16 63 18446744073709551615 64 iv 12 words64LE
  let hf := blakeFold compress 128 msg.length h0 0 (blakeBlocks 128 msg)
  hf.flatMap wordLE64

/-- BLAKE2s-256 digest (32 bytes), unkeyed with default parameters, as
`hashlib.blake2s(data)` computes it. -/
def blake2sBytes (msg : List Nat) : List Nat :=
  let iv := [1779033703, 3144134277, 1013904242, 2773480762,
    1359893119, 2600822924, 528734635, 1541459225]
  let h0 := iv.set 0 (iv.getD 0 0 ^^^ 16842784)
  let compress := blakeCompress u32 rotr32 16 12 8 7 4294967295 32 iv 10 wordsLE
  let hf := blakeFold compress 64 msg.length h0 0 (blakeBlocks 64 msg)
  hf.flatMap wordLE

/-! ### The structured-value model

A Python `str` is a sequence of code points below `0x110000`, lone surrogates
included, so strings are `List Nat`. `pstr` builds one from a Lean string
(whose characters are always Unicode scalar values). -/

/-- Code points of a Lean string. -/
def pstr (s : String) : List Nat := s.data.map Char.toNat

/-- Python float as seen by `json.dumps`. A finite float is carried together
with its decimal rendering `repr` (Python's shortest round-trip form, e.g.
`2.0`), which is what the serializer emits; the rendering algorithm itself is
IEEE-754 floating point and is not re-derived here. The non-finite values are
kept symbolic because `json.dumps` special-cases them. -/
inductive PyFloat where
  | finite (repr : List Nat)
  | nan
  | inf
  | ninf
  deriving DecidableEq

/-- Dictionary keys accepted by `json.dumps` without `skipkeys` and hashable
in Python: strings, ints, bools and None. (Float keys also exist in Python;
no claim involves them and they are omitted.) -/
inductive PyKey where
  | str (s : List Nat)
  | int (n : Int)
  | bool (b : Bool)
  | none
  deriving DecidableEq

/-- A Python object passed to `digest`. `pyobject` stands for any object of a
type the `json` serializer rejects with `TypeError` (a set, a function, …).
Lists model both Python `list` and `tuple`. Dictionaries are association
lists; a list that models an actual Python `dict` has pairwise distinct keys. -/
inductive PyVal where
  | none
  | bool (b : Bool)
  | int (n : Int)
  | float (f : PyFloat)
  | str (s : List Nat)
  | list (xs : List PyVal)
  | dict (es : List (PyKey × PyVal))
  | pyobject

/-! ### Key ordering

With `sort_keys=True` the serializer sorts `dct.items()`; comparing a string
key with a numeric key raises `TypeError`, numeric keys (`int`/`bool`)
compare by value, string keys compare lexicographically by code point. The
comparison below is total (distinct classes are ranked) but the serializer
only reaches it after `sortableKeys` has verified that all keys are of one
comparable class, mirroring where Python raises. -/

/-- Three-way comparison on `Nat`. -/
def natCmp (a b : Nat) : Ordering := if a < b then .lt else if b < a then .gt else .eq

/-- Three-way comparison on `Int`. -/
def intCmp (a b : Int) : Ordering := if a < b then .lt else if b < a then .gt else .eq

/-- Lexicographic three-way comparison of code-point sequences; this is
Python's `str` ordering. -/
def lexCmp : List Nat → List Nat → Ordering
  | [], [] => .eq
  | [], _ :: _ => .lt
  | _ :: _, [] => .gt
  | a :: as, b :: bs =>
      match natCmp a b with
      | .eq => lexCmp as bs
      | o => o

/-- Comparison class of a key: strings, numbers (`int`/`bool`), `None`. -/
def keyClass : PyKey → Nat
  | .str _ => 0
  | .int _ => 1
  | .bool _ => 1
  | .none => 2

/-- String content of a key (empty for non-strings). -/
def keyStrV : PyKey → List Nat
  | .str s => s
  | _ => []

/-- Numeric value of a key (Python's `True == 1`, `False == 0`). -/
def keyNumV : PyKey → Int
  | .int n => n
  | .bool true => 1
  | .bool false => 0
  | _ => 0

/-- Three-way comparison of keys: by class, then string content, then
numeric value. Within one comparison class this is exactly Python's `<`. -/
def keyCmp (a b : PyKey) : Ordering :=
  (natCmp (keyClass a) (keyClass b)).then
    ((lexCmp (keyStrV a) (keyStrV b)).then (intCmp (keyNumV a) (keyNumV b)))

/-- Boolean weak order on keys used by the sort. -/
def keyLe (a b : PyKey) : Bool :=
  match keyCmp a b with
  | .gt => false
  | _ => true

/-- The key is a string. -/
def isStrKey : PyKey → Bool
  | .str _ => true
  | _ => false

/-- The key is numeric (`int` or `bool`). -/
def isNumKey : PyKey → Bool
  | .int _ => true
  | .bool _ => true
  | _ => false

/-- Whether `sorted(dct.items())` succeeds: any two keys that get compared
must be in the same comparison class; with at most one key nothing is ever
compared. -/
def sortableKeys (ks : List PyKey) : Bool :=
  ks.all isStrKey || ks.all isNumKey || ks.length ≤ 1

/-- Coercion of a non-string key to its JSON name, as the serializer does
before emission: `1` ↦ `"1"`, `True` ↦ `"true"`, `None` ↦ `"null"`. -/
def coerceKey : PyKey → List Nat
  | .str s => s
  | .int n => pstr (toString n)
  | .bool true => pstr "true"
  | .bool false => pstr "false"
  | .none => pstr "null"

/-! ### String escaping and emission (`ensure_ascii=False`) -/

/-- Escape of one code point inside a JSON string with `ensure_ascii=False`:
quote and backslash get two-character escapes, control characters below
`0x20` the short escapes `\b \t \n \f \r` or `\u00xx`, everything else
(lone surrogates included) is emitted unchanged. -/
def escapeChar (c : Nat) : List Nat :=
  if c = 34 then [92, 34]
  else if c = 92 then [92, 92]
  else if c < 32 then
    match c with
    | 8 => [92, 98]
    | 9 => [92, 116]
    | 10 => [92, 110]
    | 12 => [92, 102]
    | 13 => [92, 114]
    | _ => [92, 117, 48, 48, (hexChar (c / 16 % 16)).toNat, (hexChar (c % 16)).toNat]
  else [c]

/-- A JSON string literal: quote, escaped content, quote. -/
def escapeStr (s : List Nat) : List Nat := [34] ++ s.flatMap escapeChar ++ [34]

/-- Join parts with a separator (the serializer uses the default separators
`', '` and `': '` of `json.dumps`). -/
def joinSep (sep : List Nat) : List (List Nat) → List Nat
  | [] => []
  | [x] => x
  | x :: xs => x ++ sep ++ joinSep sep xs

/-- Item separator `', '`. -/
def commaSep : List Nat := [44, 32]

/-- Weak order on serialized dictionary items, by key. -/
def pairLe (a b : PyKey × List Nat) : Prop := keyLe a.1 b.1 = true

instance : DecidableRel pairLe := fun a b => inferInstanceAs (Decidable (keyLe a.1 b.1 = true))

/-- Strict order on serialized dictionary items, by key. -/
def pairLt (a b : PyKey × List Nat) : Prop := keyCmp a.1 b.1 = Ordering.lt

/-- One emitted dictionary entry: escaped coerced key, `': '`, serialized
value. -/
def dictEntry (p : PyKey × List Nat) : List Nat :=
  escapeStr (coerceKey p.1) ++ [58, 32] ++ p.2

mutual

/-- Embedding of `json.dumps(obj, sort_keys=True, ensure_ascii=False)` as a
code-point sequence, `TypeError` as `Except.error ()`. Numbers render as
Python does (`repr` for floats, `str` for ints, `NaN`/`Infinity`/`-Infinity`
for non-finite floats — the call site leaves `allow_nan` at its default
`True`). Dictionary items are serialized first and then sorted by key;
Python sorts the items first and then serializes values in sorted order, but
per-item serialization is pure, so the emitted bytes agree, and a raised
`TypeError` — whether from an unserializable value or from an unsortable key
set — is the same exception either way. -/
def serVal : PyVal → Except Unit (List Nat)
  | .none => pure (pstr "null")
  | .bool true => pure (pstr "true")
  | .bool false => pure (pstr "false")
  | .int n => pure (pstr (toString n))
  | .float (.finite r) => pure r
  | .float .nan => pure (pstr "NaN")
  | .float .inf => pure (pstr "Infinity")
  | .float .ninf => pure (pstr "-Infinity")
  | .str s => pure (escapeStr s)
  | .list xs => do
      let parts ← serElems xs
      pure ([91] ++ joinSep commaSep parts ++ [93])
  | .dict es =>
      if sortableKeys (es.map Prod.fst) then do
        let pairs ← serPairs es
        let sorted := List.insertionSort pairLe pairs
        pure ([123] ++ joinSep commaSep (sorted.map dictEntry) ++ [125])
      else throw ()
  | .pyobject => throw ()

/-- Serialize list elements in order. -/
def serElems : List PyVal → Except Unit (List (List Nat))
  | [] => pure []
  | v :: vs => do
      let sv ← serVal v
      let rest ← serElems vs
      pure (sv :: rest)

/-- Serialize the values of dictionary items, keeping keys. -/
def serPairs : List (PyKey × PyVal) → Except Unit (List (PyKey × List Nat))
  | [] => pure []
  | (k, v) :: es => do
      let sv ← serVal v
      let rest ← serPairs es
      pure ((k, sv) :: rest)

end

/-! ### UTF-8 encoding (`str.encode('utf8')`) -/

/-- The code point is a surrogate (not encodable by Python's UTF-8 codec). -/
def isSurrogate (c : Nat) : Bool := 55296 ≤ c && c ≤ 57343

/-- UTF-8 bytes of one non-surrogate code point. -/
def encodeCp (c : Nat) : List Nat :=
  if c < 0x80 then [c]
  else if c < 0x800 then [0xC0 ||| (c >>> 6), 0x80 ||| (c &&& 0x3F)]
  else if c < 0x10000 then
    [0xE0 ||| (c >>> 12), 0x80 ||| ((c >>> 6) &&& 0x3F), 0x80 ||| (c &&& 0x3F)]
  else
    [0xF0 ||| (c >>> 18), 0x80 ||| ((c >>> 12) &&& 0x3F), 0x80 ||| ((c >>> 6) &&& 0x3F),
     0x80 ||| (c &&& 0x3F)]

/-- Embedding of `str.encode('utf8')`: `UnicodeEncodeError` on a lone
surrogate (fail, never substitute), UTF-8 bytes otherwise. -/
def encodeUtf8 : List Nat → Except Unit (List Nat)
  | [] => pure []
  | c :: cs =>
      if isSurrogate c then throw ()
      else do
        let rest ← encodeUtf8 cs
        pure (encodeCp c ++ rest)

/-! ### The algorithm registry and `digest` -/

/-- The hash constructors of `hashlib` that succeed under the call pattern
of `digest`, `getattr(hashlib, algorithm)(stringified).hexdigest()`: the
module's guaranteed algorithms except the two shake constructors, whose
`hexdigest()` requires a length argument (they are listed with the
non-constructor attributes below). -/
inductive HashAlg where
  | md5
  | sha1
  | sha224
  | sha256
  | sha384
  | sha512
  | sha3_224
  | sha3_256
  | sha3_384
  | sha3_512
  | blake2b
  | blake2s
  deriving DecidableEq

/-- Embedding of the `getattr(hashlib, algorithm)` lookup restricted to the
usable hash constructors: a static name-to-implementation mapping — never a
fallback to a default. Names bound to the module's remaining attributes are
in `hashlibNonCtorAttrs`; any other name raises `AttributeError`
(`Option.none` here). -/
def hashlibAttr (algorithm : String) : Option HashAlg :=
  if algorithm = "md5" then some .md5
  else if algorithm = "sha1" then some .sha1
  else if algorithm = "sha224" then some .sha224
  else if algorithm = "sha256" then some .sha256
  else if algorithm = "sha384" then some .sha384
  else if algorithm = "sha512" then some .sha512
  else if algorithm = "sha3_224" then some .sha3_224
  else if algorithm = "sha3_256" then some .sha3_256
  else if algorithm = "sha3_384" then some .sha3_384
  else if algorithm = "sha3_512" then some .sha3_512
  else if algorithm = "blake2b" then some .blake2b
  else if algorithm = "blake2s" then some .blake2s
  else Option.none

/-- The attributes of the `hashlib` module (CPython 3.11) that are not
usable hash constructors: module functions, data attributes, the shake
constructors (whose `hexdigest()` demands a length argument) and the
private and dunder attributes. For these `getattr` succeeds and the
subsequent call — `hash_alg(stringified)` or its `hexdigest()` — raises
`TypeError`, which `digest` does not catch (the raise happens at the return
statement, outside both `try` blocks). -/
def hashlibNonCtorAttrs : List String :=
  ["new", "pbkdf2_hmac", "scrypt", "file_digest",
   "algorithms_available", "algorithms_guaranteed",
   "shake_128", "shake_256", "_hashlib",
   "__all__", "__block_openssl_constructor", "__builtin_constructor_cache",
   "__builtins__", "__cached__", "__doc__", "__file__",
   "__get_builtin_constructor", "__loader__", "__name__", "__package__",
   "__spec__"]

/-- Digest bytes of the selected algorithm. -/
def hashBytes : HashAlg → List Nat → List Nat
  | .md5 => md5Bytes
  | .sha1 => sha1Bytes
  | .sha224 => sha224Bytes
  | .sha256 => sha256Bytes
  | .sha384 => sha384Bytes
  | .sha512 => sha512Bytes
  | .sha3_224 => sha3Bytes 144 28
  | .sha3_256 => sha3Bytes 136 32
  | .sha3_384 => sha3Bytes 104 48
  | .sha3_512 => sha3Bytes 72 64
  | .blake2b => blake2bBytes
  | .blake2s => blake2sBytes

/-- Output byte-length of each algorithm. -/
def digestSize : HashAlg → Nat
  | .md5 => 16
  | .sha1 => 20
  | .sha224 => 28
  | .sha256 => 32
  | .sha384 => 48
  | .sha512 => 64
  | .sha3_224 => 28
  | .sha3_256 => 32
  | .sha3_384 => 48
  | .sha3_512 => 64
  | .blake2b => 64
  | .blake2s => 32

/-- How a `digest` call fails. Each constructor is one of the raise sites of
the Python code: `unserializableInput` is the
`ValueError("The supplied object is not JSON-serializable …")` raised when
`json.dumps` raises `TypeError`; `unicodeEncodeError` is the
`UnicodeEncodeError` that `.encode('utf8')` raises on a lone surrogate and
that propagates uncaught (the surrounding `except` only catches
`TypeError`); `unsupportedAlgorithm` is the
`ValueError("… is not an algorithm provided by Python's hashlib library.")`
raised when `getattr` raises `AttributeError`; `uncaughtTypeError` is the
`TypeError` raised by `hash_alg(stringified).hexdigest()` when the
looked-up attribute is not a usable hash constructor — it occurs at the
return statement, outside both `try` blocks, and propagates uncaught. -/
inductive DigestError where
  | unserializableInput
  | unicodeEncodeError
  | unsupportedAlgorithm
  | uncaughtTypeError
  deriving DecidableEq

/-- The error reports input that cannot be canonicalized, the spec's
`UnserializableInput` kind (which covers invalid string encoding). In Python
both such errors are `ValueError`s — `UnicodeEncodeError` is a `ValueError`
subclass — while `unsupportedAlgorithm` is the distinct
`UnsupportedAlgorithm` kind and `uncaughtTypeError` is a `TypeError`,
belonging to neither kind. -/
def DigestError.isUnserializableInput : DigestError → Bool
  | .unserializableInput => true
  | .unicodeEncodeError => true
  | .unsupportedAlgorithm => false
  | .uncaughtTypeError => false

/-- Embedding of `pyhf.utils.digest(obj, algorithm='sha256')`: stringify via
`json.dumps(obj, sort_keys=True, ensure_ascii=False)` (a `TypeError` becomes
the not-JSON-serializable `ValueError`), encode as UTF-8 (an encode failure
propagates as `UnicodeEncodeError`), look up the algorithm in `hashlib`,
and return the lowercase hex digest of `hash_alg(stringified)`. An absent
attribute (`AttributeError`) becomes the unsupported-algorithm `ValueError`;
an attribute that is not a usable hash constructor makes the final call
raise an uncaught `TypeError`. -/
def digest (obj : PyVal) (algorithm : String := "sha256") : Except DigestError String :=
  match serVal obj with
  | .error _ => .error .unserializableInput
  | .ok text =>
    match encodeUtf8 text with
    | .error _ => .error .unicodeEncodeError
    | .ok stringified =>
      match hashlibAttr algorithm with
      | some alg => .ok (hexdigest (hashBytes alg stringified))
      | Option.none =>
          if algorithm ∈ hashlibNonCtorAttrs then .error .uncaughtTypeError
          else .error .unsupportedAlgorithm

/-! ### Containment predicates used to state the claims -/

/-- Some code point of the sequence is a lone surrogate. -/
def strHasSurrogate (s : List Nat) : Bool := s.any isSurrogate

/-- The key is a string containing a lone surrogate. -/
def keyHasSurrogate : PyKey → Bool
  | .str s => strHasSurrogate s
  | _ => false

mutual

/-- Some string (value or dictionary key) inside the value contains a lone
surrogate, i.e. is not encodable in valid UTF-8. -/
def containsSurrogate : PyVal → Bool
  | .str s => strHasSurrogate s
  | .list xs => surrElems xs
  | .dict es => surrPairs es
  | _ => false

/-- Surrogate containment over list elements. -/
def surrElems : List PyVal → Bool
  | [] => false
  | v :: vs => containsSurrogate v || surrElems vs

/-- Surrogate containment over dictionary items (keys and values). -/
def surrPairs : List (PyKey × PyVal) → Bool
  | [] => false
  | (k, v) :: es => keyHasSurrogate k || containsSurrogate v || surrPairs es

end

mutual

/-- The value contains (as itself or somewhere inside a list or dictionary)
an object the JSON serializer rejects with `TypeError`. -/
def containsPyobject : PyVal → Bool
  | .pyobject => true
  | .list xs => pyobjElems xs
  | .dict es => pyobjPairs es
  | _ => false

/-- Rejected-object containment over list elements. -/
def pyobjElems : List PyVal → Bool
  | [] => false
  | v :: vs => containsPyobject v || pyobjElems vs

/-- Rejected-object containment over dictionary values. -/
def pyobjPairs : List (PyKey × PyVal) → Bool
  | [] => false
  | (_, v) :: es => containsPyobject v || pyobjPairs es

end

/-- The sixteen lowercase hexadecimal digits. -/
def lowerHexChars : List Char := "0123456789abcdef".data

/-- Every character of the string is a lowercase hexadecimal digit. -/
def isLowerHexStr (s : String) : Bool := s.data.all fun c => lowerHexChars.contains c

/-- The documented example object `{'a': 2.0, 'b': 3.0, 'c': 1.0}` (Python
renders each of these floats as the shown two-character-and-dot literal). -/
def sampleObj : PyVal :=
  .dict [(.str (pstr "a"), .float (.finite (pstr "2.0"))),
         (.str (pstr "b"), .float (.finite (pstr "3.0"))),
         (.str (pstr "c"), .float (.finite (pstr "1.0")))]

/-! ### Lemmas about `Except` -/

theorem exceptBind_ok {ε α β : Type} (a : α) (f : α → Except ε β) :
    (Except.ok a >>= f) = f a := rfl

theorem exceptBind_error {ε α β : Type} (e : ε) (f : α → Except ε β) :
    ((Except.error e : Except ε α) >>= f) = Except.error e := rfl

/-! ### Lemmas about the key comparison -/

theorem natCmp_lt_iff {a b : Nat} : natCmp a b = .lt ↔ a < b := by
  unfold natCmp; split_ifs <;> simp <;> omega

theorem natCmp_gt_iff {a b : Nat} : natCmp a b = .gt ↔ b < a := by
  unfold natCmp; split_ifs <;> simp <;> omega

theorem natCmp_eq_iff {a b : Nat} : natCmp a b = .eq ↔ a = b := by
  unfold natCmp; split_ifs <;> simp <;> omega

theorem intCmp_lt_iff {a b : Int} : intCmp a b = .lt ↔ a < b := by
  unfold intCmp; split_ifs <;> simp <;> omega

theorem intCmp_gt_iff {a b : Int} : intCmp a b = .gt ↔ b < a := by
  unfold intCmp; split_ifs <;> simp <;> omega

theorem intCmp_eq_iff {a b : Int} : intCmp a b = .eq ↔ a = b := by
  unfold intCmp; split_ifs <;> simp <;> omega

theorem natCmp_swap (a b : Nat) : natCmp b a = (natCmp a b).swap := by
  unfold natCmp; split_ifs <;> simp [Ordering.swap] <;> omega

theorem intCmp_swap (a b : Int) : intCmp b a = (intCmp a b).swap := by
  unfold intCmp; split_ifs <;> simp [Ordering.swap] <;> omega

theorem lexCmp_eq_iff : ∀ {s t : List Nat}, lexCmp s t = .eq ↔ s = t := by
  intro s
  induction s with
  | nil => intro t; cases t <;> simp [lexCmp]
  | cons a as ih =>
      intro t
      cases t with
      | nil => simp [lexCmp]
      | cons b bs =>
          simp only [lexCmp]
          cases h : natCmp a b with
          | lt =>
              have hab := natCmp_lt_iff.mp h
              constructor
              · intro hc; cases hc
              · intro hc; injection hc with h1 h2; exact absurd h1 (by omega)
          | gt =>
              have hab := natCmp_gt_iff.mp h
              constructor
              · intro hc; cases hc
              · intro hc; injection hc with h1 h2; exact absurd h1 (by omega)
          | eq =>
              have hab := natCmp_eq_iff.mp h
              subst hab
              rw [ih]
              simp

theorem lexCmp_swap : ∀ (s t : List Nat), lexCmp t s = (lexCmp s t).swap := by
  intro s
  induction s with
  | nil => intro t; cases t <;> simp [lexCmp, Ordering.swap]
  | cons a as ih =>
      intro t
      cases t with
      | nil => simp [lexCmp, Ordering.swap]
      | cons b bs =>
          simp only [lexCmp]
          rw [natCmp_swap a b]
          cases h : natCmp a b with
          | lt => simp [Ordering.swap]
          | gt => simp [Ordering.swap]
          | eq => simp [Ordering.swap, ih bs]

theorem lexCmp_lt_trans :
    ∀ {s t u : List Nat}, lexCmp s t = .lt → lexCmp t u = .lt → lexCmp s u = .lt := by
  intro s
  induction s with
  | nil =>
      intro t u h1 h2
      cases t with
      | nil => exact h2
      | cons b bs =>
          cases u with
          | nil => simp [lexCmp] at h2
          | cons c cs => simp [lexCmp]
  | cons a as ih =>
      intro t u h1 h2
      cases t with
      | nil => simp [lexCmp] at h1
      | cons b bs =>
          cases u with
          | nil => simp [lexCmp] at h2
          | cons c cs =>
              simp only [lexCmp] at h1 h2 ⊢
              cases hab : natCmp a b with
              | gt => rw [hab] at h1; cases h1
              | lt =>
                  have h3 := natCmp_lt_iff.mp hab
                  cases hbc : natCmp b c with
                  | gt => rw [hbc] at h2; cases h2
                  | lt =>
                      have h4 := natCmp_lt_iff.mp hbc
                      rw [natCmp_lt_iff.mpr (by omega : a < c)]
                  | eq =>
                      have h4 := natCmp_eq_iff.mp hbc
                      rw [natCmp_lt_iff.mpr (by omega : a < c)]
              | eq =>
                  have h3 := natCmp_eq_iff.mp hab
                  rw [hab] at h1
                  cases hbc : natCmp b c with
                  | gt => rw [hbc] at h2; cases h2
                  | lt =>
                      have h4 := natCmp_lt_iff.mp hbc
                      rw [natCmp_lt_iff.mpr (by omega : a < c)]
                  | eq =>
                      have h4 := natCmp_eq_iff.mp hbc
                      rw [hbc] at h2
                      rw [natCmp_eq_iff.mpr (by omega : a = c)]
                      exact ih h1 h2

theorem then_eq_eq {o1 o2 : Ordering} : o1.then o2 = .eq ↔ o1 = .eq ∧ o2 = .eq := by
  cases o1 <;> simp [Ordering.then]

theorem then_eq_lt {o1 o2 : Ordering} : o1.then o2 = .lt ↔ o1 = .lt ∨ (o1 = .eq ∧ o2 = .lt) := by
  cases o1 <;> simp [Ordering.then]

theorem keyCmp_swap (a b : PyKey) : keyCmp b a = (keyCmp a b).swap := by
  unfold keyCmp
  rw [natCmp_swap (keyClass a) (keyClass b), lexCmp_swap (keyStrV a) (keyStrV b),
    intCmp_swap (keyNumV a) (keyNumV b)]
  generalize natCmp (keyClass a) (keyClass b) = o1
  generalize lexCmp (keyStrV a) (keyStrV b) = o2
  generalize intCmp (keyNumV a) (keyNumV b) = o3
  cases o1 <;> cases o2 <;> cases o3 <;> rfl

theorem keyCmp_eq_proj {a b : PyKey} (h : keyCmp a b = .eq) :
    keyClass a = keyClass b ∧ keyStrV a = keyStrV b ∧ keyNumV a = keyNumV b := by
  unfold keyCmp at h
  rw [then_eq_eq, then_eq_eq] at h
  exact ⟨natCmp_eq_iff.mp h.1, lexCmp_eq_iff.mp h.2.1, intCmp_eq_iff.mp h.2.2⟩

theorem keyCmp_congr_right {b c : PyKey} (a : PyKey) (h : keyCmp b c = .eq) :
    keyCmp a b = keyCmp a c := by
  obtain ⟨h1, h2, h3⟩ := keyCmp_eq_proj h
  unfold keyCmp
  rw [h1, h2, h3]

theorem keyCmp_congr_left {a b : PyKey} (c : PyKey) (h : keyCmp a b = .eq) :
    keyCmp a c = keyCmp b c := by
  obtain ⟨h1, h2, h3⟩ := keyCmp_eq_proj h
  unfold keyCmp
  rw [h1, h2, h3]

theorem keyCmp_lt_trans {a b c : PyKey}
    (h1 : keyCmp a b = .lt) (h2 : keyCmp b c = .lt) : keyCmp a c = .lt := by
  unfold keyCmp at h1 h2 ⊢
  rw [then_eq_lt, then_eq_lt] at h1 h2 ⊢
  rcases h1 with h1 | ⟨h1c, h1i⟩
  · rcases h2 with h2 | ⟨h2c, h2i⟩
    · exact Or.inl (natCmp_lt_iff.mpr
        (lt_trans (natCmp_lt_iff.mp h1) (natCmp_lt_iff.mp h2)))
    · rw [natCmp_eq_iff.mp h2c] at h1
      exact Or.inl h1
  · rcases h2 with h2 | ⟨h2c, h2i⟩
    · rw [← natCmp_eq_iff.mp h1c] at h2
      exact Or.inl h2
    · refine Or.inr ⟨by rw [natCmp_eq_iff] at *; omega, ?_⟩
      rcases h1i with h1i | ⟨h1s, h1n⟩
      · rcases h2i with h2i | ⟨h2s, h2n⟩
        · exact Or.inl (lexCmp_lt_trans h1i h2i)
        · rw [lexCmp_eq_iff.mp h2s] at h1i
          exact Or.inl h1i
      · rcases h2i with h2i | ⟨h2s, h2n⟩
        · rw [← lexCmp_eq_iff.mp h1s] at h2i
          exact Or.inl h2i
        · refine Or.inr ⟨by rw [lexCmp_eq_iff] at *; rw [h1s, h2s], ?_⟩
          rw [intCmp_lt_iff] at *
          omega

theorem keyLe_iff {a b : PyKey} : keyLe a b = true ↔ keyCmp a b ≠ .gt := by
  unfold keyLe
  cases keyCmp a b <;> simp

theorem keyLe_total (a b : PyKey) : keyLe a b = true ∨ keyLe b a = true := by
  rw [keyLe_iff, keyLe_iff, keyCmp_swap a b]
  cases keyCmp a b <;> simp [Ordering.swap]

theorem keyLe_trans {a b c : PyKey}
    (h1 : keyLe a b = true) (h2 : keyLe b c = true) : keyLe a c = true := by
  rw [keyLe_iff] at h1 h2 ⊢
  cases hab : keyCmp a b with
  | gt => exact absurd hab h1
  | lt =>
      cases hbc : keyCmp b c with
      | gt => exact absurd hbc h2
      | lt => rw [keyCmp_lt_trans hab hbc]; simp
      | eq => rw [← keyCmp_congr_right a hbc, hab]; simp
  | eq =>
      rw [keyCmp_congr_left c hab]
      exact h2

instance : IsTotal (PyKey × List Nat) pairLe :=
  ⟨fun a b => keyLe_total a.1 b.1⟩

instance : IsTrans (PyKey × List Nat) pairLe :=
  ⟨fun _ _ _ h1 h2 => keyLe_trans h1 h2⟩

instance : IsAntisymm (PyKey × List Nat) pairLt :=
  ⟨fun a b h1 h2 => by
    unfold pairLt at h1 h2
    rw [keyCmp_swap a.1 b.1, h1] at h2
    simp [Ordering.swap] at h2⟩

theorem sorted_pairLt {l : List (PyKey × List Nat)}
    (hs : l.Sorted pairLe)
    (hstr : ∀ p ∈ l, isStrKey p.1 = true)
    (hnd : (l.map Prod.fst).Nodup) :
    l.Sorted pairLt := by
  have hne : l.Pairwise fun p q : PyKey × List Nat => p.1 ≠ q.1 :=
    List.pairwise_map.mp hnd
  refine (hs.and hne).imp_of_mem ?_
  intro p q hp hq hr
  obtain ⟨hle, hne'⟩ := hr
  unfold pairLe at hle
  unfold pairLt
  cases h : keyCmp p.1 q.1 with
  | lt => rfl
  | gt => rw [keyLe_iff] at hle; exact absurd h hle
  | eq =>
      obtain ⟨-, hstrv, -⟩ := keyCmp_eq_proj h
      have hp' := hstr p hp
      have hq' := hstr q hq
      cases hk1 : p.1 <;> rw [hk1] at hp' <;> simp [isStrKey] at hp'
      cases hk2 : q.1 <;> rw [hk2] at hq' <;> simp [isStrKey] at hq'
      rw [hk1, hk2] at hstrv hne'
      simp [keyStrV] at hstrv
      exact absurd (by rw [hstrv]) hne'

theorem exceptPure {ε α : Type} (a : α) : (pure a : Except ε α) = Except.ok a := rfl

theorem exceptThrow {ε α : Type} (e : ε) : (throw e : Except ε α) = Except.error e := rfl

/-! ### Characterizations of the serializer -/

theorem serVal_list_ok {xs : List PyVal} {parts : List (List Nat)}
    (h : serElems xs = .ok parts) :
    serVal (.list xs) = .ok ([91] ++ joinSep commaSep parts ++ [93]) := by
  simp [serVal, h, exceptBind_ok, exceptPure]

theorem serVal_list_err {xs : List PyVal} (h : serElems xs = .error ()) :
    serVal (.list xs) = .error () := by
  simp [serVal, h, exceptBind_error]

theorem serVal_dict_ok {es : List (PyKey × PyVal)} {ps : List (PyKey × List Nat)}
    (hsort : sortableKeys (es.map Prod.fst) = true) (hps : serPairs es = .ok ps) :
    serVal (.dict es) =
      .ok ([123] ++ joinSep commaSep ((List.insertionSort pairLe ps).map dictEntry) ++ [125]) := by
  simp [serVal, hsort, hps, exceptBind_ok, exceptPure]

theorem serVal_dict_unsortable {es : List (PyKey × PyVal)}
    (hsort : sortableKeys (es.map Prod.fst) = false) :
    serVal (.dict es) = .error () := by
  simp [serVal, hsort, exceptThrow]

theorem serVal_dict_errPairs {es : List (PyKey × PyVal)}
    (hps : serPairs es = .error ()) :
    serVal (.dict es) = .error () := by
  by_cases hsort : sortableKeys (es.map Prod.fst) = true
  · simp [serVal, hsort, hps, exceptBind_error]
  · simp [serVal, hsort, exceptThrow]

theorem serPairs_keys : ∀ {es : List (PyKey × PyVal)} {ps : List (PyKey × List Nat)},
    serPairs es = .ok ps → ps.map Prod.fst = es.map Prod.fst := by
  intro es
  induction es with
  | nil =>
      intro ps h
      simp [serPairs, exceptPure] at h
      simp [← h]
  | cons e es ih =>
      obtain ⟨k, v⟩ := e
      intro ps h
      simp only [serPairs] at h
      cases hv : serVal v with
      | error e0 => rw [hv, exceptBind_error] at h; cases h
      | ok sv =>
          rw [hv, exceptBind_ok] at h
          cases hrest : serPairs es with
          | error e1 => rw [hrest, exceptBind_error] at h; cases h
          | ok rest =>
              rw [hrest, exceptBind_ok, exceptPure] at h
              cases h
              simp [ih hrest]

theorem serPairs_perm {es1 es2 : List (PyKey × PyVal)} (h : es1.Perm es2) :
    (serPairs es1 = .error () ∧ serPairs es2 = .error ()) ∨
    ∃ ps1 ps2, serPairs es1 = .ok ps1 ∧ serPairs es2 = .ok ps2 ∧ ps1.Perm ps2 := by
  induction h with
  | nil => exact Or.inr ⟨[], [], rfl, rfl, .nil⟩
  | cons x h ih =>
      obtain ⟨k, v⟩ := x
      cases hv : serVal v with
      | error e0 =>
          cases e0
          exact Or.inl ⟨by simp [serPairs, hv, exceptBind_error],
            by simp [serPairs, hv, exceptBind_error]⟩
      | ok sv =>
          rcases ih with ⟨h1, h2⟩ | ⟨ps1, ps2, h1, h2, hp⟩
          · exact Or.inl ⟨by simp [serPairs, hv, h1, exceptBind_ok, exceptBind_error],
              by simp [serPairs, hv, h2, exceptBind_ok, exceptBind_error]⟩
          · exact Or.inr ⟨(k, sv) :: ps1, (k, sv) :: ps2,
              by simp [serPairs, hv, h1, exceptBind_ok, exceptPure],
              by simp [serPairs, hv, h2, exceptBind_ok, exceptPure],
              hp.cons _⟩
  | swap x y l =>
      obtain ⟨k1, v1⟩ := x
      obtain ⟨k2, v2⟩ := y
      cases hv1 : serVal v1 with
      | error e0 =>
          cases e0
          cases hv2 : serVal v2 with
          | error e1 =>
              cases e1
              exact Or.inl ⟨by simp [serPairs, hv1, hv2, exceptBind_error, exceptBind_ok],
                by simp [serPairs, hv1, hv2, exceptBind_error, exceptBind_ok]⟩
          | ok sv2 =>
              exact Or.inl ⟨by simp [serPairs, hv1, hv2, exceptBind_error, exceptBind_ok],
                by simp [serPairs, hv1, hv2, exceptBind_error, exceptBind_ok]⟩
      | ok sv1 =>
          cases hv2 : serVal v2 with
          | error e1 =>
              cases e1
              exact Or.inl ⟨by simp [serPairs, hv1, hv2, exceptBind_error, exceptBind_ok],
                by simp [serPairs, hv1, hv2, exceptBind_error, exceptBind_ok]⟩
          | ok sv2 =>
              cases hl : serPairs l with
              | error e2 =>
                  cases e2
                  exact Or.inl
                    ⟨by simp [serPairs, hv1, hv2, hl, exceptBind_error, exceptBind_ok],
                     by simp [serPairs, hv1, hv2, hl, exceptBind_error, exceptBind_ok]⟩
              | ok ps =>
                  exact Or.inr ⟨(k2, sv2) :: (k1, sv1) :: ps, (k1, sv1) :: (k2, sv2) :: ps,
                    by simp [serPairs, hv1, hv2, hl, exceptBind_ok, exceptPure],
                    by simp [serPairs, hv1, hv2, hl, exceptBind_ok, exceptPure],
                    List.Perm.swap (k1, sv1) (k2, sv2) ps⟩
  | trans h12 h23 ih12 ih23 =>
      rcases ih12 with ⟨h1, h2⟩ | ⟨ps1, ps2, h1, h2, hp⟩
      · rcases ih23 with ⟨h2', h3⟩ | ⟨ps2', ps3, h2', h3, hp'⟩
        · exact Or.inl ⟨h1, h3⟩
        · rw [h2] at h2'; cases h2'
      · rcases ih23 with ⟨h2', h3⟩ | ⟨ps2', ps3, h2', h3, hp'⟩
        · rw [h2] at h2'; cases h2'
        · rw [h2] at h2'
          cases h2'
          exact Or.inr ⟨ps1, ps3, h1, h3, hp.trans hp'⟩

theorem serVal_dict_eq_of_perm {es1 es2 : List (PyKey × PyVal)}
    (hstr : (es1.map Prod.fst).all isStrKey = true)
    (hnd : (es1.map Prod.fst).Nodup)
    (hperm : es1.Perm es2) :
    serVal (.dict es1) = serVal (.dict es2) := by
  have hpermk : (es1.map Prod.fst).Perm (es2.map Prod.fst) := hperm.map Prod.fst
  have hstr2 : (es2.map Prod.fst).all isStrKey = true := by
    rw [List.all_eq_true] at hstr ⊢
    intro k hk
    exact hstr k (hpermk.mem_iff.mpr hk)
  have hsort1 : sortableKeys (es1.map Prod.fst) = true := by
    unfold sortableKeys; rw [hstr]; simp
  have hsort2 : sortableKeys (es2.map Prod.fst) = true := by
    unfold sortableKeys; rw [hstr2]; simp
  rcases serPairs_perm hperm with ⟨h1, h2⟩ | ⟨ps1, ps2, h1, h2, hp⟩
  · rw [serVal_dict_errPairs h1, serVal_dict_errPairs h2]
  · rw [serVal_dict_ok hsort1 h1, serVal_dict_ok hsort2 h2]
    have keys1 : ps1.map Prod.fst = es1.map Prod.fst := serPairs_keys h1
    have keys2 : ps2.map Prod.fst = es2.map Prod.fst := serPairs_keys h2
    have hps1 : (List.insertionSort pairLe ps1).Perm ps1 := List.perm_insertionSort pairLe ps1
    have hps2 : (List.insertionSort pairLe ps2).Perm ps2 := List.perm_insertionSort pairLe ps2
    have hstrmem1 : ∀ p ∈ List.insertionSort pairLe ps1, isStrKey p.1 = true := by
      intro p hpmem
      have : p.1 ∈ es1.map Prod.fst := by
        rw [← keys1]
        exact List.mem_map_of_mem Prod.fst (hps1.mem_iff.mp hpmem)
      exact List.all_eq_true.mp hstr p.1 this
    have hstrmem2 : ∀ p ∈ List.insertionSort pairLe ps2, isStrKey p.1 = true := by
      intro p hpmem
      have : p.1 ∈ es2.map Prod.fst := by
        rw [← keys2]
        exact List.mem_map_of_mem Prod.fst (hps2.mem_iff.mp hpmem)
      exact List.all_eq_true.mp hstr2 p.1 this
    have hnd1 : ((List.insertionSort pairLe ps1).map Prod.fst).Nodup := by
      rw [(hps1.map Prod.fst).nodup_iff, keys1]
      exact hnd
    have hnd2 : ((List.insertionSort pairLe ps2).map Prod.fst).Nodup := by
      rw [(hps2.map Prod.fst).nodup_iff, keys2, ← hpermk.nodup_iff]
      exact hnd
    have hsorted1 : (List.insertionSort pairLe ps1).Sorted pairLt :=
      sorted_pairLt (List.sorted_insertionSort pairLe ps1) hstrmem1 hnd1
    have hsorted2 : (List.insertionSort pairLe ps2).Sorted pairLt :=
      sorted_pairLt (List.sorted_insertionSort pairLe ps2) hstrmem2 hnd2
    have hsp : (List.insertionSort pairLe ps1).Perm (List.insertionSort pairLe ps2) :=
      (hps1.trans hp).trans hps2.symm
    rw [List.eq_of_perm_of_sorted hsp hsorted1 hsorted2]

/-! ### Surrogates survive serialization -/

theorem escapeChar_surrogate {c : Nat} (h : isSurrogate c = true) : escapeChar c = [c] := by
  simp only [isSurrogate, Bool.and_eq_true, decide_eq_true_eq] at h
  unfold escapeChar
  rw [if_neg (by omega), if_neg (by omega), if_neg (by omega)]

theorem mem_escapeStr {c : Nat} {s : List Nat} (hc : c ∈ s) (h : isSurrogate c = true) :
    c ∈ escapeStr s := by
  have hm : c ∈ s.flatMap escapeChar :=
    List.mem_flatMap.mpr ⟨c, hc, by rw [escapeChar_surrogate h]; exact List.mem_singleton_self c⟩
  simp [escapeStr, hm]

theorem mem_joinSep {sep : List Nat} :
    ∀ {parts : List (List Nat)} {p : List Nat}, p ∈ parts →
      ∀ {c : Nat}, c ∈ p → c ∈ joinSep sep parts := by
  intro parts
  induction parts with
  | nil => intro p hp; simp at hp
  | cons x xs ih =>
      intro p hp c hc
      cases xs with
      | nil =>
          simp at hp
          subst hp
          simpa [joinSep] using hc
      | cons y ys =>
          rcases List.mem_cons.mp hp with rfl | hp'
          · simp [joinSep, List.mem_append]
            exact Or.inl hc
          · simp [joinSep, List.mem_append]
            exact Or.inr (Or.inr (ih hp' hc))

theorem strHasSurrogate_iff {s : List Nat} :
    strHasSurrogate s = true ↔ ∃ c ∈ s, isSurrogate c = true := by
  simp [strHasSurrogate]

theorem keyHasSurrogate_elim {k : PyKey} (h : keyHasSurrogate k = true) :
    ∃ s, k = .str s ∧ strHasSurrogate s = true := by
  cases k with
  | str s => exact ⟨s, rfl, by simpa [keyHasSurrogate] using h⟩
  | int n => simp [keyHasSurrogate] at h
  | bool b => simp [keyHasSurrogate] at h
  | none => simp [keyHasSurrogate] at h

theorem encodeUtf8_err_of_surrogate :
    ∀ {s : List Nat}, strHasSurrogate s = true → encodeUtf8 s = .error () := by
  intro s
  induction s with
  | nil => intro h; simp [strHasSurrogate] at h
  | cons c cs ih =>
      intro h
      by_cases hc : isSurrogate c = true
      · simp [encodeUtf8, hc, exceptThrow]
      · have htail : strHasSurrogate cs = true := by
          simp [strHasSurrogate, List.any_cons] at h
          rcases h with h | h
          · exact absurd h hc
          · simpa [strHasSurrogate]
        simp [encodeUtf8, hc, ih htail, exceptBind_error]

mutual

theorem surr_serVal : ∀ (v : PyVal) (out : List Nat),
    serVal v = .ok out → containsSurrogate v = true → strHasSurrogate out = true
  | .none, _, _, hsur => by simp [containsSurrogate] at hsur
  | .bool b, _, _, hsur => by cases b <;> simp [containsSurrogate] at hsur
  | .int _, _, _, hsur => by simp [containsSurrogate] at hsur
  | .float _, _, _, hsur => by simp [containsSurrogate] at hsur
  | .pyobject, _, _, hsur => by simp [containsSurrogate] at hsur
  | .str s, out, hser, hsur => by
      simp only [serVal, exceptPure] at hser
      cases hser
      simp only [containsSurrogate] at hsur
      obtain ⟨c, hc, hcs⟩ := strHasSurrogate_iff.mp hsur
      exact strHasSurrogate_iff.mpr ⟨c, mem_escapeStr hc hcs, hcs⟩
  | .list xs, out, hser, hsur => by
      simp only [containsSurrogate] at hsur
      cases hx : serElems xs with
      | error e0 => cases e0; rw [serVal_list_err hx] at hser; cases hser
      | ok parts =>
          rw [serVal_list_ok hx] at hser
          cases hser
          obtain ⟨p, hp, hps⟩ := surr_serElems xs parts hx hsur
          obtain ⟨c, hc, hcs⟩ := strHasSurrogate_iff.mp hps
          exact strHasSurrogate_iff.mpr
            ⟨c, List.mem_append_right [91] (List.mem_append_left [93] (mem_joinSep hp hc)), hcs⟩
  | .dict es, out, hser, hsur => by
      simp only [containsSurrogate] at hsur
      cases hsort : sortableKeys (es.map Prod.fst) with
      | false => rw [serVal_dict_unsortable hsort] at hser; cases hser
      | true =>
          cases hps : serPairs es with
          | error e0 => cases e0; rw [serVal_dict_errPairs hps] at hser; cases hser
          | ok ps =>
              rw [serVal_dict_ok hsort hps] at hser
              cases hser
              obtain ⟨q, hq, hqs⟩ := surr_serPairs es ps hps hsur
              have hqmem : q ∈ List.insertionSort pairLe ps :=
                (List.perm_insertionSort pairLe ps).mem_iff.mpr hq
              have hentry : dictEntry q ∈ (List.insertionSort pairLe ps).map dictEntry :=
                List.mem_map_of_mem dictEntry hqmem
              rw [Bool.or_eq_true] at hqs
              rcases hqs with hk | hv2
              · obtain ⟨s', hkey, hs'⟩ := keyHasSurrogate_elim hk
                obtain ⟨c, hc, hcs⟩ := strHasSurrogate_iff.mp hs'
                have hcd : c ∈ dictEntry q := by
                  unfold dictEntry
                  rw [hkey]
                  exact List.mem_append_left q.2 (List.mem_append_left [58, 32] (by
                    simpa [coerceKey] using mem_escapeStr hc hcs))
                exact strHasSurrogate_iff.mpr
                  ⟨c, List.mem_append_right [123]
                    (List.mem_append_left [125] (mem_joinSep hentry hcd)), hcs⟩
              · obtain ⟨c, hc, hcs⟩ := strHasSurrogate_iff.mp hv2
                have hcd : c ∈ dictEntry q :=
                  List.mem_append_right (escapeStr (coerceKey q.1) ++ [58, 32]) hc
                exact strHasSurrogate_iff.mpr
                  ⟨c, List.mem_append_right [123]
                    (List.mem_append_left [125] (mem_joinSep hentry hcd)), hcs⟩

theorem surr_serElems : ∀ (xs : List PyVal) (parts : List (List Nat)),
    serElems xs = .ok parts → surrElems xs = true →
    ∃ p ∈ parts, strHasSurrogate p = true
  | [], _, _, hsur => by simp [surrElems] at hsur
  | v :: vs, parts, hser, hsur => by
      simp only [serElems] at hser
      cases hv : serVal v with
      | error e0 => rw [hv, exceptBind_error] at hser; cases hser
      | ok sv =>
          rw [hv, exceptBind_ok] at hser
          cases hrest : serElems vs with
          | error e1 => rw [hrest, exceptBind_error] at hser; cases hser
          | ok rest =>
              rw [hrest, exceptBind_ok, exceptPure] at hser
              cases hser
              simp only [surrElems, Bool.or_eq_true] at hsur
              rcases hsur with h | h
              · exact ⟨sv, List.mem_cons_self sv rest, surr_serVal v sv hv h⟩
              · obtain ⟨p, hp, hps⟩ := surr_serElems vs rest hrest h
                exact ⟨p, List.mem_cons_of_mem sv hp, hps⟩

theorem surr_serPairs : ∀ (es : List (PyKey × PyVal)) (ps : List (PyKey × List Nat)),
    serPairs es = .ok ps → surrPairs es = true →
    ∃ q ∈ ps, (keyHasSurrogate q.1 || strHasSurrogate q.2) = true
  | [], _, _, hsur => by simp [surrPairs] at hsur
  | (k, v) :: es, ps, hser, hsur => by
      simp only [serPairs] at hser
      cases hv : serVal v with
      | error e0 => rw [hv, exceptBind_error] at hser; cases hser
      | ok sv =>
          rw [hv, exceptBind_ok] at hser
          cases hrest : serPairs es with
          | error e1 => rw [hrest, exceptBind_error] at hser; cases hser
          | ok rest =>
              rw [hrest, exceptBind_ok, exceptPure] at hser
              cases hser
              simp only [surrPairs, Bool.or_eq_true] at hsur
              rcases hsur with (hkk | hvv) | ht
              · exact ⟨(k, sv), List.mem_cons_self (k, sv) rest, by simp [hkk]⟩
              · exact ⟨(k, sv), List.mem_cons_self (k, sv) rest,
                  by simp [surr_serVal v sv hv hvv]⟩
              · obtain ⟨q, hq, hqs⟩ := surr_serPairs es rest hrest ht
                exact ⟨q, List.mem_cons_of_mem (k, sv) hq, hqs⟩

end

mutual

theorem pyobj_serVal : ∀ (v : PyVal), containsPyobject v = true → serVal v = .error ()
  | .none, h => by simp [containsPyobject] at h
  | .bool b, h => by cases b <;> simp [containsPyobject] at h
  | .int _, h => by simp [containsPyobject] at h
  | .float _, h => by simp [containsPyobject] at h
  | .str _, h => by simp [containsPyobject] at h
  | .pyobject, _ => rfl
  | .list xs, h => by
      simp only [containsPyobject] at h
      exact serVal_list_err (pyobj_serElems xs h)
  | .dict es, h => by
      simp only [containsPyobject] at h
      exact serVal_dict_errPairs (pyobj_serPairs es h)

theorem pyobj_serElems : ∀ (xs : List PyVal), pyobjElems xs = true → serElems xs = .error ()
  | [], h => by simp [pyobjElems] at h
  | v :: vs, h => by
      simp only [pyobjElems, Bool.or_eq_true] at h
      rcases h with h | h
      · simp [serElems, pyobj_serVal v h, exceptBind_error]
      · cases hv : serVal v with
        | error e0 => cases e0; simp [serElems, hv, exceptBind_error]
        | ok sv =>
            simp [serElems, hv, pyobj_serElems vs h, exceptBind_ok, exceptBind_error]

theorem pyobj_serPairs : ∀ (es : List (PyKey × PyVal)),
    pyobjPairs es = true → serPairs es = .error ()
  | [], h => by simp [pyobjPairs] at h
  | (k, v) :: es, h => by
      simp only [pyobjPairs, Bool.or_eq_true] at h
      rcases h with h | h
      · simp [serPairs, pyobj_serVal v h, exceptBind_error]
      · cases hv : serVal v with
        | error e0 => cases e0; simp [serPairs, hv, exceptBind_error]
        | ok sv =>
            simp [serPairs, hv, pyobj_serPairs es h, exceptBind_ok, exceptBind_error]

end

/-! ### Digest output format -/

theorem outBE8_length (st : S8) : (outBE8 st).length = 32 := by
  obtain ⟨a, b, c, d, e, f, g, h⟩ := st
  simp [outBE8, wordBE]

theorem outBE5_length (st : S5) : (outBE5 st).length = 20 := by
  obtain ⟨a, b, c, d, e⟩ := st
  simp [outBE5, wordBE]

theorem outLE4_length (st : S4) : (outLE4 st).length = 16 := by
  obtain ⟨a, b, c, d⟩ := st
  simp [outLE4, wordLE]

theorem sha256Bytes_length (msg : List Nat) : (sha256Bytes msg).length = 32 := by
  unfold sha256Bytes
  exact outBE8_length _

theorem sha1Bytes_length (msg : List Nat) : (sha1Bytes msg).length = 20 := by
  unfold sha1Bytes
  exact outBE5_length _

theorem md5Bytes_length (msg : List Nat) : (md5Bytes msg).length = 16 := by
  unfold md5Bytes
  exact outLE4_length _

theorem outBE7_length (st : S8) : (outBE7 st).length = 28 := by
  obtain ⟨a, b, c, d, e, f, g, h⟩ := st
  simp [outBE7, wordBE]

theorem outBE64x8_length (st : S8) : (outBE64x8 st).length = 64 := by
  obtain ⟨a, b, c, d, e, f, g, h⟩ := st
  simp [outBE64x8, wordBE64]

theorem outBE64x6_length (st : S8) : (outBE64x6 st).length = 48 := by
  obtain ⟨a, b, c, d, e, f, g, h⟩ := st
  simp [outBE64x6, wordBE64]

theorem sha224Bytes_length (msg : List Nat) : (sha224Bytes msg).length = 28 := by
  unfold sha224Bytes
  exact outBE7_length _

theorem sha512Bytes_length (msg : List Nat) : (sha512Bytes msg).length = 64 := by
  unfold sha512Bytes
  exact outBE64x8_length _

theorem sha384Bytes_length (msg : List Nat) : (sha384Bytes msg).length = 48 := by
  unfold sha384Bytes
  exact outBE64x6_length _

theorem flatMap_wordLE64_length : ∀ l : List Nat, (l.flatMap wordLE64).length = 8 * l.length := by
  intro l
  induction l with
  | nil => rfl
  | cons w ws ih =>
      simp only [List.flatMap_cons, wordLE64, List.length_append, List.length_cons, ih]
      simp
      omega

theorem flatMap_wordLE_length : ∀ l : List Nat, (l.flatMap wordLE).length = 4 * l.length := by
  intro l
  induction l with
  | nil => rfl
  | cons w ws ih =>
      simp only [List.flatMap_cons, wordLE, List.length_append, List.length_cons, ih]
      simp
      omega

theorem keccakRound_length (s : List Nat) (rc : Nat) : (keccakRound s rc).length = 25 := by
  simp [keccakRound, keccakChi, keccakRhoPi, keccakTheta]

theorem foldl_keccakRound_length :
    ∀ (l : List Nat) (s : List Nat), s.length = 25 →
      (List.foldl keccakRound s l).length = 25 := by
  intro l
  induction l with
  | nil => intro s h; simpa using h
  | cons rc rest ih => intro s _; exact ih _ (keccakRound_length s rc)

theorem keccakAbsorb_length (s block : List Nat) : (keccakAbsorb s block).length = 25 := by
  unfold keccakAbsorb keccakP
  exact foldl_keccakRound_length keccakRC _ (by simp)

theorem foldl_keccakAbsorb_length :
    ∀ (bs : List (List Nat)) (s : List Nat), s.length = 25 →
      (List.foldl keccakAbsorb s bs).length = 25 := by
  intro bs
  induction bs with
  | nil => intro s h; simpa using h
  | cons b rest ih => intro s _; exact ih _ (keccakAbsorb_length s b)

theorem sha3Bytes_length (rate outLen : Nat) (msg : List Nat) (h : outLen ≤ 200) :
    (sha3Bytes rate outLen msg).length = outLen := by
  unfold sha3Bytes
  rw [List.length_take, flatMap_wordLE64_length,
    foldl_keccakAbsorb_length _ _ (by simp)]
  omega

theorem blakeCompress_length (red : Nat → Nat) (rot : Nat → Nat → Nat)
    (r1 r2 r3 r4 mask wbits : Nat) (iv : List Nat) (nrounds : Nat)
    (toWords : List Nat → List Nat) (h block : List Nat) (t : Nat) (last : Bool) :
    (blakeCompress red rot r1 r2 r3 r4 mask wbits iv nrounds toWords h block t last).length = 8 := by
  simp [blakeCompress]

theorem blakeFold_length (compress : List Nat → List Nat → Nat → Bool → List Nat)
    (hc : ∀ h b t last, (compress h b t last).length = 8) (bb total : Nat) :
    ∀ (bs : List (List Nat)) (h : List Nat) (done : Nat), h.length = 8 →
      (blakeFold compress bb total h done bs).length = 8 := by
  intro bs
  induction bs with
  | nil => intro h done hh; simpa [blakeFold] using hh
  | cons b rest ih =>
      intro h done hh
      cases rest with
      | nil => simpa [blakeFold] using hc h b total true
      | cons b2 rest2 =>
          simp only [blakeFold]
          exact ih _ _ (hc h b (done + bb) false)

theorem blake2bBytes_length (msg : List Nat) : (blake2bBytes msg).length = 64 := by
  simp only [blake2bBytes]
  rw [flatMap_wordLE64_length,
    blakeFold_length _ (fun h b t last => blakeCompress_length _ _ _ _ _ _ _ _ _ _ _ h b t last)
      128 msg.length _ _ _ (by simp)]

theorem blake2sBytes_length (msg : List Nat) : (blake2sBytes msg).length = 32 := by
  simp only [blake2sBytes]
  rw [flatMap_wordLE_length,
    blakeFold_length _ (fun h b t last => blakeCompress_length _ _ _ _ _ _ _ _ _ _ _ h b t last)
      64 msg.length _ _ _ (by simp)]

theorem hashBytes_length (a : HashAlg) (msg : List Nat) :
    (hashBytes a msg).length = digestSize a := by
  cases a with
  | md5 => exact md5Bytes_length msg
  | sha1 => exact sha1Bytes_length msg
  | sha224 => exact sha224Bytes_length msg
  | sha256 => exact sha256Bytes_length msg
  | sha384 => exact sha384Bytes_length msg
  | sha512 => exact sha512Bytes_length msg
  | sha3_224 => exact sha3Bytes_length 144 28 msg (by omega)
  | sha3_256 => exact sha3Bytes_length 136 32 msg (by omega)
  | sha3_384 => exact sha3Bytes_length 104 48 msg (by omega)
  | sha3_512 => exact sha3Bytes_length 72 64 msg (by omega)
  | blake2b => exact blake2bBytes_length msg
  | blake2s => exact blake2sBytes_length msg

theorem hexChar_mem_lowerHex {n : Nat} (h : n < 16) :
    lowerHexChars.contains (hexChar n) = true := by
  interval_cases n <;> decide

theorem byteHex_chars {b : Nat} : ∀ ch ∈ byteHex b, lowerHexChars.contains ch = true := by
  intro ch hch
  simp only [byteHex, List.mem_cons, List.not_mem_nil, or_false] at hch
  rcases hch with rfl | rfl
  · exact hexChar_mem_lowerHex (Nat.mod_lt _ (by omega))
  · exact hexChar_mem_lowerHex (Nat.mod_lt _ (by omega))

theorem flatMap_byteHex_length : ∀ bs : List Nat, (bs.flatMap byteHex).length = 2 * bs.length := by
  intro bs
  induction bs with
  | nil => rfl
  | cons b bs ih =>
      simp only [List.flatMap_cons, byteHex, List.length_append, List.length_cons, ih]
      simp
      omega

theorem hexdigest_length (bs : List Nat) : (hexdigest bs).length = 2 * bs.length := by
  show (bs.flatMap byteHex).length = 2 * bs.length
  exact flatMap_byteHex_length bs

theorem hexdigest_lowerHex (bs : List Nat) : isLowerHexStr (hexdigest bs) = true := by
  show (bs.flatMap byteHex).all (fun c => lowerHexChars.contains c) = true
  rw [List.all_eq_true]
  intro ch hch
  obtain ⟨b, _, hbh⟩ := List.mem_flatMap.mp hch
  exact byteHex_chars ch hbh

theorem digest_ok_elim {v : PyVal} {alg : String} {s : String} (h : digest v alg = .ok s) :
    ∃ a text bytes, serVal v = .ok text ∧ encodeUtf8 text = .ok bytes ∧
      hashlibAttr alg = some a ∧ s = hexdigest (hashBytes a bytes) := by
  cases hs : serVal v with
  | error e0 => simp [digest, hs] at h
  | ok text =>
      cases he : encodeUtf8 text with
      | error e1 => simp [digest, hs, he] at h
      | ok bytes =>
          cases ha : hashlibAttr alg with
          | none =>
              simp only [digest, hs, he, ha] at h
              split at h <;> simp at h
          | some a =>
              simp only [digest, hs, he, ha, Except.ok.injEq] at h
              exact ⟨a, text, bytes, rfl, he, rfl, h.symm⟩

/-! ### The claims -/

/-- C1: for the mapping `{"a": 2.0, "b": 3.0, "c": 1.0}`, `digest` returns
exactly the three documented hex strings with the default sha256, with md5
and with sha1. -/
theorem digest_known_vectors :
    digest sampleObj = .ok "a38f6093800189b79bc22ef677baf90c75705af2cfc7ff594159eca54eaa7928" ∧
    digest sampleObj "md5" = .ok "2c0633f242928eb55c3672fed5ba8612" ∧
    digest sampleObj "sha1" = .ok "49a27f499e763766c9545b294880df277be6f545" := by
  decide

/-- C3 counterexample: `digest(float('nan'))` does not fail — `json.dumps`
is called with its default `allow_nan=True`, so the value serializes to the
token `NaN` and a digest is returned. -/
theorem digest_nan_succeeds :
    digest (.float .nan) "sha256" =
      .ok "d5b592c05dc25b5032553f1b27f4139be95e881f73db33b02b05ab20c3f9981e" := by
  decide

/-- C3 amended: every value containing an element the serializer rejects
(an opaque non-JSON-serializable object) fails with the
unserializable-input error under any algorithm name; non-finite floats,
however, are not rejected: they serialize to `NaN` / `Infinity` /
`-Infinity`. -/
theorem digest_unserializable_amended (v : PyVal) (alg : String)
    (h : containsPyobject v = true) :
    digest v alg = .error .unserializableInput ∧
    serVal (.float .nan) = .ok (pstr "NaN") ∧
    serVal (.float .inf) = .ok (pstr "Infinity") ∧
    serVal (.float .ninf) = .ok (pstr "-Infinity") := by
  refine ⟨?_, by decide, by decide, by decide⟩
  simp [digest, pyobj_serVal v h]

theorem digest_unserializable_amended_witness :
    digest (.list [.int 1, .pyobject]) "md5" = .error .unserializableInput ∧
    serVal (.float .nan) = .ok (pstr "NaN") ∧
    serVal (.float .inf) = .ok (pstr "Infinity") ∧
    serVal (.float .ninf) = .ok (pstr "-Infinity") :=
  digest_unserializable_amended (.list [.int 1, .pyobject]) "md5" (by decide)

/-- C4: two dictionaries with the same string-keyed (key, value) pairs in
different insertion orders produce the same digest under every algorithm
name, because items are sorted by key before emission. -/
theorem digest_key_order_independence (es1 es2 : List (PyKey × PyVal)) (alg : String)
    (hstr : (es1.map Prod.fst).all isStrKey = true)
    (hnd : (es1.map Prod.fst).Nodup)
    (hperm : es1.Perm es2) :
    digest (.dict es1) alg = digest (.dict es2) alg := by
  unfold digest
  rw [serVal_dict_eq_of_perm hstr hnd hperm]

theorem digest_key_order_independence_witness :
    digest (.dict [(.str (pstr "a"), .int 1), (.str (pstr "b"), .int 2)]) "sha256" =
      digest (.dict [(.str (pstr "b"), .int 2), (.str (pstr "a"), .int 1)]) "sha256" :=
  digest_key_order_independence
    [(.str (pstr "a"), .int 1), (.str (pstr "b"), .int 2)]
    [(.str (pstr "b"), .int 2), (.str (pstr "a"), .int 1)]
    "sha256" (by decide) (by decide)
    (List.Perm.swap (PyKey.str (pstr "b"), PyVal.int 2) (PyKey.str (pstr "a"), PyVal.int 1) [])

/-- C5: sequence order is significant: `[1, 2]` and `[2, 1]` digest to
different strings under each supported algorithm. -/
theorem digest_sequence_order_sensitive :
    digest (.list [.int 1, .int 2]) "sha256" ≠ digest (.list [.int 2, .int 1]) "sha256" ∧
    digest (.list [.int 1, .int 2]) "sha1" ≠ digest (.list [.int 2, .int 1]) "sha1" ∧
    digest (.list [.int 1, .int 2]) "md5" ≠ digest (.list [.int 2, .int 1]) "md5" := by
  decide

/-- C6: a value containing a string with a lone surrogate is rejected under
every algorithm name: `digest` fails, and the error is of the
unserializable-input kind (in Python a `ValueError`: either the explicit
not-JSON-serializable one, or the `UnicodeEncodeError` subclass raised by
`.encode('utf8')`); the string is never substituted or re-encoded. -/
theorem digest_surrogate_rejected (v : PyVal) (alg : String)
    (h : containsSurrogate v = true) :
    ∃ e, digest v alg = .error e ∧ e.isUnserializableInput = true := by
  cases hs : serVal v with
  | error e0 =>
      cases e0
      exact ⟨.unserializableInput, by simp [digest, hs], rfl⟩
  | ok text =>
      have htext : strHasSurrogate text = true := surr_serVal v text hs h
      have henc : encodeUtf8 text = .error () := encodeUtf8_err_of_surrogate htext
      exact ⟨.unicodeEncodeError, by simp [digest, hs, henc], rfl⟩

theorem digest_surrogate_rejected_witness :
    ∃ e, digest (.str [55296]) "sha256" = .error e ∧ e.isUnserializableInput = true :=
  digest_surrogate_rejected (.str [55296]) "sha256" (by decide)

/-- C7: a successful digest is a lowercase hexadecimal string whose length
is twice the output byte-length of the selected hash function: 64
characters for sha256, 40 for sha1, 32 for md5. -/
theorem digest_output_format (v : PyVal) (alg : String) (s : String)
    (h : digest v alg = .ok s) :
    isLowerHexStr s = true ∧
    (∃ a, hashlibAttr alg = some a ∧ s.length = 2 * digestSize a) ∧
    (alg = "sha256" → s.length = 64) ∧
    (alg = "sha1" → s.length = 40) ∧
    (alg = "md5" → s.length = 32) := by
  obtain ⟨a, text, bytes, -, -, ha, hshape⟩ := digest_ok_elim h
  subst hshape
  have hlen : (hexdigest (hashBytes a bytes)).length = 2 * digestSize a := by
    rw [hexdigest_length, hashBytes_length]
  refine ⟨hexdigest_lowerHex _, ⟨a, ha, hlen⟩, ?_, ?_, ?_⟩
  · rintro rfl
    have h256 : hashlibAttr "sha256" = some HashAlg.sha256 := by decide
    rw [h256] at ha
    injection ha with ha'
    rw [hlen, ← ha']
    decide
  · rintro rfl
    have h1 : hashlibAttr "sha1" = some HashAlg.sha1 := by decide
    rw [h1] at ha
    injection ha with ha'
    rw [hlen, ← ha']
    decide
  · rintro rfl
    have hm : hashlibAttr "md5" = some HashAlg.md5 := by decide
    rw [hm] at ha
    injection ha with ha'
    rw [hlen, ← ha']
    decide

theorem digest_output_format_witness :
    isLowerHexStr "5feceb66ffc86f38d952786c6d696c79c2dbc239dd4e91b46729d73a27fb57e9" = true ∧
    (∃ a, hashlibAttr "sha256" = some a ∧
      "5feceb66ffc86f38d952786c6d696c79c2dbc239dd4e91b46729d73a27fb57e9".length =
        2 * digestSize a) ∧
    ("sha256" = "sha256" →
      "5feceb66ffc86f38d952786c6d696c79c2dbc239dd4e91b46729d73a27fb57e9".length = 64) ∧
    ("sha256" = "sha1" →
      "5feceb66ffc86f38d952786c6d696c79c2dbc239dd4e91b46729d73a27fb57e9".length = 40) ∧
    ("sha256" = "md5" →
      "5feceb66ffc86f38d952786c6d696c79c2dbc239dd4e91b46729d73a27fb57e9".length = 32) :=
  digest_output_format (.int 0) "sha256"
    "5feceb66ffc86f38d952786c6d696c79c2dbc239dd4e91b46729d73a27fb57e9" (by decide)

/-- C8: the default algorithm is sha256: for every value, `digest v` is the
same call as `digest v "sha256"`. -/
theorem digest_default_sha256 (v : PyVal) : digest v = digest v "sha256" := rfl

/-- C9: when the value is unserializable and the algorithm name is also
unsupported, the unserializable-input error wins: serialization is
attempted before the algorithm is looked up. -/
theorem digest_error_precedence (v : PyVal) (alg : String)
    (hser : serVal v = .error ()) (halg : hashlibAttr alg = Option.none) :
    digest v alg = .error .unserializableInput ∧
    digest v alg ≠ .error .unsupportedAlgorithm := by
  have h1 : digest v alg = .error .unserializableInput := by simp [digest, hser]
  exact ⟨h1, by rw [h1]; decide⟩

theorem digest_error_precedence_witness :
    digest .pyobject "not-a-real-algorithm" = .error .unserializableInput ∧
    digest .pyobject "not-a-real-algorithm" ≠ .error .unsupportedAlgorithm :=
  digest_error_precedence .pyobject "not-a-real-algorithm" (by decide) (by decide)

/-- C10: the structurally unequal mappings `{1: 0}` and `{"1": 0}`
canonicalize to the same byte sequence — the integer key is coerced to the
string `"1"` — and therefore collide under every supported algorithm. -/
theorem digest_key_coercion_collision :
    PyVal.dict [(.int 1, .int 0)] ≠ PyVal.dict [(.str (pstr "1"), .int 0)] ∧
    serVal (.dict [(.int 1, .int 0)]) = serVal (.dict [(.str (pstr "1"), .int 0)]) ∧
    digest (.dict [(.int 1, .int 0)]) "sha256" =
      digest (.dict [(.str (pstr "1"), .int 0)]) "sha256" ∧
    digest (.dict [(.int 1, .int 0)]) "sha1" =
      digest (.dict [(.str (pstr "1"), .int 0)]) "sha1" ∧
    digest (.dict [(.int 1, .int 0)]) "md5" =
      digest (.dict [(.str (pstr "1"), .int 0)]) "md5" := by
  refine ⟨by simp, by decide, by decide, by decide, by decide⟩
